import Mathlib

/-!
Verification of the workflow-builder core of the `keep` repository
(`keep-ui/entities/workflows/model/workflow-store.ts`).

The store file is embedded shallowly: the zustand state becomes an explicit
`WFState` record threaded through each command, JS exceptions become an
`Except`-style result paired with the state that was live at the throw
point, and machine-level details (React metadata, devtools) are dropped.
Helper modules imported by the store but absent from this tree
(`utils/reactFlow`, the builder `utils`, the zod schemas, the validators and
the layout engine) are either modelled from the specification (marked
`Modelled from the spec:`) or kept as parameters of an `Env` record when the
specification constrains them only loosely.
-/

namespace KeepWF

/-- A JSON-ish property value carried by steps and by the workflow property
map (`v2Properties`): either a string or a flat object. -/
inductive PValue where
  | s (v : String)
  | o (kvs : List (String × String))
deriving DecidableEq, Repr

/-- 2-D position of a node (React Flow `position`). -/
structure Pos where
  x : Int
  y : Int
deriving DecidableEq, Repr

/-- The step payload kept in a node's `data` field: the flat part of a
`V2Step` (id, name, type, componentType, properties) plus the `isLayouted`
presentation flag.  Nested structure (branches, sequences) is never stored
in node data; it is flattened into the graph. -/
structure NodeData where
  id : String
  name : String
  type : String
  componentType : String
  properties : List (String × PValue)
  isLayouted : Bool
deriving DecidableEq, Repr

/-- A graph vertex (React Flow `FlowNode`). -/
structure FlowNode where
  id : String
  position : Pos
  data : NodeData
  isDraggable : Bool
  isNested : Bool
  prevStepId : Option String
deriving DecidableEq, Repr

/-- A directed edge.  `stroke` models `style.stroke`; `isLayouted` models
`data.isLayouted`. -/
structure Edge where
  id : String
  source : String
  target : String
  label : Option String
  stroke : Option String
  animated : Bool
  isLayouted : Bool
deriving DecidableEq, Repr

/-- A `V2Step`: the tagged union of workflow steps.  `step` is a leaf
task/action (its `componentType` field is the discriminant tag), `switchS` a
condition with a false and a true branch, `containerS` a nesting construct
(e.g. foreach), `triggerS` a trigger (its id is its kind), `startS`/`endS`
the sentinels, and `tempNode` the placeholder used by `addNodeBetween`'s
three-step scaffold. -/
inductive V2Step where
  | step (id name type componentType : String) (properties : List (String × PValue))
  | switchS (id name type : String) (properties : List (String × PValue))
      (branchesFalse branchesTrue : List V2Step)
  | containerS (id name type : String) (properties : List (String × PValue))
      (sequence : List V2Step)
  | triggerS (id type : String) (properties : List (String × PValue))
  | startS
  | endS
  | tempNode (id : String) (edgeLabel : Option String) (edgeColor : Option String)
      (edgeNotNeeded : Bool)
deriving Repr

/-- `componentType` accessor of a step. -/
def V2Step.componentType : V2Step → String
  | .step _ _ _ ct _ => ct
  | .switchS _ _ _ _ _ _ => "switch"
  | .containerS _ _ _ _ _ => "container"
  | .triggerS _ _ _ => "trigger"
  | .startS => "start"
  | .endS => "end"
  | .tempNode _ _ _ _ => "temp_node"

/-- `id` accessor of a step. -/
def V2Step.id : V2Step → String
  | .step i _ _ _ _ => i
  | .switchS i _ _ _ _ _ => i
  | .containerS i _ _ _ _ => i
  | .triggerS i _ _ => i
  | .startS => "start"
  | .endS => "end"
  | .tempNode i _ _ _ => i

/-- `type` accessor of a step. -/
def V2Step.type : V2Step → String
  | .step _ _ t _ _ => t
  | .switchS _ _ t _ _ _ => t
  | .containerS _ _ t _ _ => t
  | .triggerS _ t _ => t
  | .startS => "start"
  | .endS => "end"
  | .tempNode _ _ _ _ => "temp_node"

/-- `name` accessor of a step. -/
def V2Step.name : V2Step → String
  | .step _ n _ _ _ => n
  | .switchS _ n _ _ _ _ => n
  | .containerS _ n _ _ _ => n
  | .triggerS i _ _ => i
  | .startS => "start"
  | .endS => "end"
  | .tempNode _ _ _ _ => "temp_node"

/-- `properties` accessor of a step. -/
def V2Step.properties : V2Step → List (String × PValue)
  | .step _ _ _ _ p => p
  | .switchS _ _ _ p _ _ => p
  | .containerS _ _ _ p _ => p
  | .triggerS _ _ p => p
  | _ => []

/-- Replace the root id of a step (the `{ ...cloneStep, id: newNodeId }`
spread in `addNodeBetween`). -/
def V2Step.setId : V2Step → String → V2Step
  | .step _ n t ct p, i => .step i n t ct p
  | .switchS _ n t p bf bt, i => .switchS i n t p bf bt
  | .containerS _ n t p sq, i => .containerS i n t p sq
  | .triggerS _ t p, i => .triggerS i t p
  | s, _ => s

/-- Workflow properties: the `properties` map of a Definition / the store's
`v2Properties`, an assoc list from keys (trigger kinds and workflow
metadata) to values. -/
def WProps := List (String × PValue)
deriving instance DecidableEq, Repr for WProps

/-- The authoritative tree form of a workflow. -/
structure Definition where
  sequence : List V2Step
  properties : WProps

/-- Severity of a validation finding. -/
inductive Severity where
  | error
  | warning
deriving DecidableEq, Repr

/-- A validation finding: message and severity (the source's
`ValidationError` tuple). -/
def Finding := String × Severity
deriving instance DecidableEq, Repr for Finding

/-- The two error kinds of the store: `schema` models a `ZodError` from
payload parsing, `structural` a thrown `KeepWorkflowStoreError`. -/
inductive WFError where
  | schema
  | structural (msg : String)
deriving DecidableEq, Repr

/-- The slice of the zustand store state that the structural commands read
and write. -/
structure WFState where
  nodes : List FlowNode
  edges : List Edge
  v2Properties : List (String × PValue)
  selectedNode : Option String
  selectedEdge : Option String
  editorOpen : Bool
  isLayouted : Bool
  changes : Nat
  lastChangedAt : Option Nat
  canDeploy : Bool
  validationErrors : List (String × Finding)
  definition : Option Definition
  isEditorSyncedWithNodes : Bool

/-- `PROTECTED_NODE_IDS` from the store. -/
def PROTECTED_NODE_IDS : List String := ["start", "end", "trigger_start", "trigger_end"]

/-- JS `String.prototype.includes` for a non-empty pattern. -/
def strIncludes (s pat : String) : Bool := (s.splitOn pat).length != 1

/-- Assoc-list insertion with JS-object semantics: overwrite the value of an
existing key in place, otherwise append. -/
def insertAL (m : List (String × α)) (k : String) (v : α) : List (String × α) :=
  match m with
  | [] => [(k, v)]
  | (k', v') :: rest => if k' = k then (k, v) :: rest else (k', v') :: insertAL rest k v

/-- Assoc-list lookup. -/
def lookupAL (m : List (String × α)) (k : String) : Option α :=
  match m with
  | [] => none
  | (k', v) :: rest => if k' = k then some v else lookupAL rest k

/-- JS `delete obj[k]` on an assoc list. -/
def eraseAL (m : List (String × α)) (k : String) : List (String × α) :=
  match m with
  | [] => []
  | (k', v) :: rest => if k' = k then eraseAL rest k else (k', v) :: eraseAL rest k

/-- Modelled from the spec: `createCustomEdgeMeta` of `utils/reactFlow`
(absent from this tree) builds the directed edge record `source → target`
with an optional label, as used by the mutation engine (§3 Edge, §4.3). -/
def createCustomEdgeMeta (source target : String) (label : Option String) : Edge :=
  { id := source ++ "-" ++ target
    source := source
    target := target
    label := label
    stroke := none
    animated := false
    isLayouted := false }

/-- Modelled from the spec: `createDefaultNodeV2` of `utils/reactFlow`
(absent from this tree) recreates a graph vertex wrapping the given step
data under the given id, with a fresh default position and presentation
flags (§3 Node). -/
def createDefaultNodeV2 (data : NodeData) (id : String) : FlowNode :=
  { id := id
    position := { x := 0, y := 0 }
    data := data
    isDraggable := false
    isNested := false
    prevStepId := none }

/-- Modelled from the spec: `canAddTriggerBeforeEdge` of the builder utils
(absent from this tree) — a Trigger may only be inserted on an edge that
starts at `trigger_start`, whose target (after the store's redirect) is
`trigger_end` (§4.3 precondition 3). -/
def canAddTriggerBeforeEdge (source target : String) : Bool :=
  source = "trigger_start" && target = "trigger_end"

/-- Modelled from the spec: `canAddStepBeforeEdge` of the builder utils
(absent from this tree) — a non-trigger Step may not be inserted on the
trigger lane (§4.3 precondition 3). -/
def canAddStepBeforeEdge (source target : String) : Bool :=
  !(source = "trigger_start") && !(target = "trigger_end")

/-- The trigger kinds whose node ids are reserved. -/
def triggerKinds : List String := ["interval", "alert", "manual", "incident"]

/-- Parameters standing for store collaborators that are imported by
`workflow-store.ts` but whose code is not in this tree and whose behaviour
the specification leaves open: the zod schema parsers, the two `canAdd…`
predicates with non-local capacity conditions, uuid generation, the clock,
the external DAG-layout position assignment, and the two pure validators
(closed over the provider catalog and secrets they receive in the source). -/
structure Env where
  parseTriggerStep : V2Step → Option V2Step
  parseTemplateStep : V2Step → Option V2Step
  canAddConditionBeforeEdge : String → String → Bool
  canAddForeachBeforeEdge : String → String → Bool
  newUuid : String
  now : Nat
  layoutPos : FlowNode → Pos
  validateStepPure : V2Step → Definition → List Finding
  validateGlobalPure : Definition → List (String × String)

/-! ## The compiler: `processWorkflowV2`

Modelled from the spec (§4.1): the Definition Compiler deterministically
expands a step sequence into a flat node/edge set.  The store feeds it
either the full sequence `[start, triggers…, steps…, end]`
(`initializeWorkflow`) or a three-step `temp_node` scaffold
(`addNodeBetween`).  Each element is wired to the head of what follows it;
a Switch produces two labelled sub-paths that reconverge on its synthetic
end-boundary node `<type>__end__<id>` (the per-node boundary that the
deleteNodes range resolution of the store looks up for any deletable node,
and that the switch deletion scenario of §8 presupposes), which is then
wired to the successor; a Container likewise produces a nested region
closed by its boundary node; the configured triggers are wired in parallel
between `trigger_start` and `trigger_end`. -/

/-- Node id that the compiler gives to the boundary closing a region. -/
def boundaryId (type id : String) : String := type ++ "__end__" ++ id

/-- Fresh graph node for a flat step payload. -/
def mkStepNode (id name type componentType : String)
    (properties : List (String × PValue)) (nested : Bool) : FlowNode :=
  { id := id
    position := { x := 0, y := 0 }
    data := { id := id, name := name, type := type, componentType := componentType,
              properties := properties, isLayouted := false }
    isDraggable := false
    isNested := nested
    prevStepId := none }

/-- The id of the first node that compiling `seq` would emit, or `next` when
`seq` is empty: the chaining target used by the compiler. -/
def firstId (seq : List V2Step) (next : String) : String :=
  match seq with
  | [] => next
  | s :: _ => s.id

mutual

/-- Compile a step sequence, every exit of which is to be wired to the node
named `next`.  Returns the emitted nodes and edges. -/
def compileSeq (seq : List V2Step) (next : String) (nested : Bool) :
    List FlowNode × List Edge :=
  match seq with
  | [] => ([], [])
  | s :: rest =>
    let nxt := firstId rest next
    let (n1, e1) := compileStep s nxt nested
    let (n2, e2) := compileSeq rest next nested
    (n1 ++ n2, e1 ++ e2)

/-- Compile one step whose successor in the flow is the node named `next`. -/
def compileStep (s : V2Step) (next : String) (nested : Bool) :
    List FlowNode × List Edge :=
  match s with
  | .step id name type ct props =>
    ([mkStepNode id name type ct props nested], [createCustomEdgeMeta id next none])
  | .triggerS id type props =>
    ([mkStepNode id id type "trigger" props nested], [createCustomEdgeMeta id next none])
  | .switchS id name type props bf bt =>
    let bId := boundaryId type id
    let (fn, fe) := compileSeq bf bId true
    let (tn, te) := compileSeq bt bId true
    ([mkStepNode id name type "switch" props nested] ++ fn ++ tn ++
       [mkStepNode bId bId type "switch__end" props true],
     [createCustomEdgeMeta id (firstId bf bId) (some "false"),
      createCustomEdgeMeta id (firstId bt bId) (some "true")] ++ fe ++ te ++
       [createCustomEdgeMeta bId next none])
  | .containerS id name type props sq =>
    let bId := boundaryId type id
    let (bn, be) := compileSeq sq bId true
    ([mkStepNode id name type "container" props nested] ++ bn ++
       [mkStepNode bId bId type "container__end" props true],
     [createCustomEdgeMeta id (firstId sq bId) none] ++ be ++
       [createCustomEdgeMeta bId next none])
  | .startS => ([mkStepNode "start" "start" "start" "start" [] false], [])
  | .endS => ([mkStepNode "end" "end" "end" "end" [] false], [])
  | .tempNode id lbl color notNeeded =>
    ([], if notNeeded then [] else
      [{ createCustomEdgeMeta id next lbl with stroke := color }])

end

/-- The trigger lane: `trigger_start`, one node per trigger step, and
`trigger_end`, wired in parallel. -/
def compileLane (trigs : List V2Step) : List FlowNode × List Edge :=
  let tStart := mkStepNode "trigger_start" "trigger_start" "trigger" "trigger_start" [] false
  let tEnd := mkStepNode "trigger_end" "trigger_end" "trigger" "trigger_end" [] false
  let tNodes := trigs.map (fun t => mkStepNode t.id t.id t.type "trigger" t.properties false)
  let tEdges :=
    match trigs with
    | [] => [createCustomEdgeMeta "trigger_start" "trigger_end" none]
    | _ => trigs.flatMap (fun t =>
        [createCustomEdgeMeta "trigger_start" t.id none,
         createCustomEdgeMeta t.id "trigger_end" none])
  ([tStart] ++ tNodes ++ [tEnd], tEdges)

/-- Modelled from the spec: `processWorkflowV2` of `utils/reactFlow`
(absent from this tree), the Definition Compiler (§4.1).  On the full
sequence it prepends `start`, builds the trigger lane, compiles the main
sequence and appends `end`; on an `addNodeBetween` scaffold (which never
contains `startS`) it compiles the chain directly, `temp_node` entries
contributing only their wiring. -/
def processWorkflowV2 (seq : List V2Step) : List FlowNode × List Edge :=
  match seq with
  | .startS :: rest =>
    let trigs := rest.takeWhile (fun s => s.componentType = "trigger")
    let rest2 := rest.drop trigs.length
    let (laneN, laneE) := compileLane trigs
    let (mn, me) := compileSeq rest2 "end" false
    let startNode := mkStepNode "start" "start" "start" "start" [] false
    ([startNode] ++ laneN ++ mn,
     [createCustomEdgeMeta "start" "trigger_start" none] ++ laneE ++
       [createCustomEdgeMeta "trigger_end" (firstId rest2 "end") none] ++ me)
  | _ => compileSeq seq "" false

/-- Modelled from the spec: `getTriggerSteps` of `utils/reactFlow` (absent
from this tree) — one trigger step per configured trigger kind in the
property map (§4.1). -/
def getTriggerSteps (properties : WProps) : List V2Step :=
  (properties.filter (fun kv => triggerKinds.contains kv.1)).map
    (fun kv => .triggerS kv.1 kv.1 [kv])

/-- Compile a whole Definition: the `fullSequence` of `initializeWorkflow`
run through the compiler. -/
def compileDefinition (d : Definition) : List FlowNode × List Edge :=
  processWorkflowV2 ([.startS] ++ getTriggerSteps d.properties ++ d.sequence ++ [.endS])

/-! ## The decompiler: `reConstructWorklowToDefinition`

Modelled from the spec (§4.2): the Graph Decompiler walks the single path
from `start`, recognizing Switch fan-out (collecting the two labelled
branches recursively, the false branch up to the true branch's entry and
both reconverging at the switch's `<type>__end__<id>` boundary — the
boundary the deletion scenario of §8 relies on) and Container regions
(collecting the nodes between the entry and its matching boundary), and
reassembles the ordered step tree.  It is tolerant of malformed graphs:
unterminated regions are flushed at the end of the node list instead of
failing. -/

/-- The `false`/`true` branch edge leaving the switch node `id`. -/
def findBranch (edges : List Edge) (id lbl : String) : Option Edge :=
  edges.find? (fun e => e.source == id && e.label == some lbl)

/-- Target of the switch node's labelled branch edge (empty when missing). -/
def branchTarget (edges : List Edge) (id lbl : String) : String :=
  ((findBranch edges id lbl).map Edge.target).getD ""

/-- Rebuild a leaf step from node data. -/
def stepOfData (d : NodeData) : V2Step :=
  .step d.id d.name d.type d.componentType d.properties

/-- Rebuild a switch step from node data and its two decompiled branches. -/
def mkSwitch (d : NodeData) (bf bt : List V2Step) : V2Step :=
  .switchS d.id d.name d.type d.properties bf bt

/-- Rebuild a container step from node data and its decompiled body. -/
def mkContainer (d : NodeData) (sq : List V2Step) : V2Step :=
  .containerS d.id d.name d.type d.properties sq

/-- Decompiler context frame: the region currently being collected.
`inFalse` is an open false-branch (it closes, becoming `inTrue`, when the
true branch's first node `stopT` is reached — for an empty true branch that
is the switch's own boundary node); `inTrue` is an open true-branch and
`inBody` an open container body, both closing when the matching boundary
node `bId` is consumed.  `parentAcc` is the (reversed) accumulator of the
enclosing region. -/
inductive DCtx where
  | inFalse (sw : NodeData) (stopT : String) (bId : String) (parentAcc : List V2Step)
  | inTrue (sw : NodeData) (fSteps : List V2Step) (bId : String) (parentAcc : List V2Step)
  | inBody (cont : NodeData) (bId : String) (parentAcc : List V2Step)

/-- If the node being processed is the first node of the open false-branch's
true sibling, the false branch closes: its frame becomes `inTrue` and the
accumulator restarts.  The node itself is not consumed by this. -/
def convertFalse (hid : String) (stack : List DCtx) (acc : List V2Step) :
    List DCtx × List V2Step :=
  match stack with
  | .inFalse sw stopT bId pAcc :: srest =>
    if stopT = hid then (.inTrue sw acc.reverse bId pAcc :: srest, [])
    else (stack, acc)
  | _ => (stack, acc)

/-- Outcome of processing one node: either the finished sequence (when the
walk reaches `end`) or the state carried to the next node. -/
inductive StepOut where
  | done (res : List V2Step)
  | next (stack : List DCtx) (acc : List V2Step)

/-- Dispatch one node: stop at `end`, open a region at a switch or container
node, otherwise collect a leaf step. -/
def dispatchCore (edges : List Edge) (n : FlowNode) (acc : List V2Step)
    (stack : List DCtx) : StepOut :=
  if n.id = "end" then .done acc.reverse
  else if n.data.componentType = "switch" then
    let tT := branchTarget edges n.id "true"
    .next (.inFalse n.data tT (boundaryId n.data.type n.id) acc :: stack) []
  else if n.data.componentType = "container" then
    .next (.inBody n.data (boundaryId n.data.type n.id) acc :: stack) []
  else
    .next stack (stepOfData n.data :: acc)

/-- Process one node after the possible false-to-true conversion: consume it
if it is the boundary closing the topmost region, otherwise dispatch on its
component type. -/
def closeOrDispatch (edges : List Edge) (n : FlowNode) (stack : List DCtx)
    (acc : List V2Step) : StepOut :=
  match stack with
  | .inTrue sw fS bId pAcc :: srest =>
    if bId = n.id then .next srest (mkSwitch sw fS acc.reverse :: pAcc)
    else dispatchCore edges n acc stack
  | .inBody c bId pAcc :: srest =>
    if bId = n.id then .next srest (mkContainer c acc.reverse :: pAcc)
    else dispatchCore edges n acc stack
  | _ => dispatchCore edges n acc stack

/-- Close all regions still open at the end of the node list (tolerance for
graphs mid-edit). -/
def flushStack : List DCtx → List V2Step → List V2Step
  | [], acc => acc.reverse
  | .inFalse sw _ _ pAcc :: rest, acc => flushStack rest (mkSwitch sw acc.reverse [] :: pAcc)
  | .inTrue sw fS _ pAcc :: rest, acc => flushStack rest (mkSwitch sw fS acc.reverse :: pAcc)
  | .inBody c _ pAcc :: rest, acc => flushStack rest (mkContainer c acc.reverse :: pAcc)

/-- The main decompiler walk over the node list. -/
def foldMain (edges : List Edge) : List FlowNode → List DCtx → List V2Step → List V2Step
  | [], stack, acc => flushStack stack acc
  | n :: rest, stack, acc =>
    let p := convertFalse n.id stack acc
    match closeOrDispatch edges n p.1 p.2 with
    | .done r => r
    | .next stack1 acc1 => foldMain edges rest stack1 acc1

/-- Modelled from the spec: `reConstructWorklowToDefinition` of
`utils/reactFlow` (absent from this tree), the Graph Decompiler (§4.2):
skip `start` and the trigger lane, then walk the main path reassembling the
step tree; the property map is carried through from the current
properties. -/
def reConstructWorklowToDefinition (nodes : List FlowNode) (edges : List Edge)
    (properties : WProps) : Definition :=
  let r1 := match nodes with
    | n :: rest => if n.id = "start" then rest else nodes
    | [] => []
  let r2 := match r1 with
    | n :: rest => if n.id = "trigger_start" then rest else r1
    | [] => []
  let trigs := r2.takeWhile (fun n => n.data.componentType == "trigger")
  let r3 := r2.drop trigs.length
  let r4 := match r3 with
    | n :: rest => if n.id = "trigger_end" then rest else r3
    | [] => []
  { sequence := foldMain edges r4 [] [], properties := properties }

/-! ## Legality and compiled-graph facts

The structural side conditions under which the compiler/decompiler pair is
inverse: a Definition built through the editor has only steps, switches and
containers in its main sequence, and all node ids of its compiled graph
(including the synthetic boundary ids) are distinct. -/

/-- All node ids the compiler emits for a step sequence: the step ids plus
the boundary ids of switch and container regions. -/
def collectIds : List V2Step → List String
  | [] => []
  | .switchS id _ ty _ bf bt :: rest =>
    id :: (collectIds bf ++ collectIds bt ++ [boundaryId ty id]) ++ collectIds rest
  | .containerS id _ ty _ sq :: rest =>
    id :: (collectIds sq ++ [boundaryId ty id]) ++ collectIds rest
  | s :: rest => s.id :: collectIds rest

/-- Structural legality of a main-sequence step tree: only flat steps,
switches and containers occur, and no leaf usurps a component type with
dispatch meaning. -/
def stepsLegal : List V2Step → Bool
  | [] => true
  | .step _ _ _ ct _ :: rest =>
    !(ct == "switch" || ct == "container" || ct == "trigger") && stepsLegal rest
  | .switchS _ _ _ _ bf bt :: rest => stepsLegal bf && stepsLegal bt && stepsLegal rest
  | .containerS _ _ _ _ sq :: rest => stepsLegal sq && stepsLegal rest
  | _ => false

/-- The trigger kinds configured in a property map, in order. -/
def kindsOf (props : WProps) : List String :=
  (props.filter (fun kv => triggerKinds.contains kv.1)).map (fun kv => kv.1)

/-- Every node id of the compiled graph of a Definition: the sentinels, the
trigger lane, and the main sequence's ids. -/
def allIds (d : Definition) : List String :=
  ["start", "trigger_start"] ++ kindsOf d.properties ++ ["trigger_end"] ++
    collectIds d.sequence ++ ["end"]

/-- A Definition the editor can build: structurally legal steps and
globally distinct node ids. -/
def legalDef (d : Definition) : Prop :=
  stepsLegal d.sequence = true ∧ (allIds d).Nodup

/-- The ids at which frames of a decompiler stack close (or convert). -/
def stackStops : List DCtx → List String
  | [] => []
  | .inFalse _ stopT bId _ :: rest => stopT :: bId :: stackStops rest
  | .inTrue _ _ bId _ :: rest => bId :: stackStops rest
  | .inBody _ bId _ :: rest => bId :: stackStops rest

/-- The branch-edge facts the decompiler reads off a compiled graph: every
switch's `true` edge points at its true branch's first node (at its own
boundary when that branch is empty), recursively throughout the tree. -/
def EdgesOk (E : List Edge) : List V2Step → Prop
  | [] => True
  | .switchS id _ ty _ bf bt :: rest =>
    branchTarget E id "true" = firstId bt (boundaryId ty id) ∧
      EdgesOk E bf ∧ EdgesOk E bt ∧ EdgesOk E rest
  | .containerS _ _ _ _ sq :: rest => EdgesOk E sq ∧ EdgesOk E rest
  | _ :: rest => EdgesOk E rest


/-! ## Layout (`onLayout`), validation, and `updateDefinition` -/

/-- Modelled from the spec: `getLayoutedWorkflowElements` (absent from this
tree) delegates position computation to an external deterministic
DAG-layout algorithm: it assigns every node its computed position and
leaves node and edge identity, count and order untouched (§4.5).  The
position assignment itself is the `Env.layoutPos` parameter. -/
def getLayoutedWorkflowElements (env : Env) (ns : List FlowNode) (es : List Edge) :
    List FlowNode × List Edge :=
  (ns.map (fun n => { n with position := env.layoutPos n }), es)

/-- `onLayout` from the store: run the layout engine, mark every edge
animated iff its target id contains the `empty` placeholder marker, set the
`isLayouted` flag on every node's and edge's data, and mark the store
layouted. -/
def onLayout (env : Env) (st : WFState) : WFState :=
  let p := getLayoutedWorkflowElements env st.nodes st.edges
  let layoutedEdges := p.2.map (fun e =>
    { e with animated := strIncludes e.target "empty", isLayouted := true })
  let layoutedNodes := p.1.map (fun n =>
    { n with data := { n.data with isLayouted := true } })
  { st with nodes := layoutedNodes, edges := layoutedEdges, isLayouted := true }

/-- `step.name || step.id` (JS falsy fallback on the empty name). -/
def nameOrId (s : V2Step) : String := if s.name = "" then s.id else s.name

/-- `[...step.branches.true, ...step.branches.false]` of a switch step. -/
def V2Step.branchesAll : V2Step → List V2Step
  | .switchS _ _ _ _ bf bt => bt ++ bf
  | _ => []

/-- `step.sequence` of a container step. -/
def V2Step.seqOf : V2Step → List V2Step
  | .containerS _ _ _ _ sq => sq
  | _ => []

/-- One iteration of `validateDefinition`'s per-step loop: validate the
step's switch branches and container body, then the step itself, recording
at most one finding per display name and clearing `isValid` on any
finding. -/
def validateStepFold (env : Env) (d : Definition) (acc : Bool × List (String × Finding))
    (step : V2Step) : Bool × List (String × Finding) :=
  let errors := env.validateStepPure step d
  let acc1 :=
    if step.componentType = "switch" then
      step.branchesAll.foldl (fun a branch =>
        match env.validateStepPure branch d with
        | [] => a
        | e :: _ => (false, insertAL a.2 (nameOrId branch) e)) acc
    else acc
  let acc2 :=
    if step.componentType = "container" then
      step.seqOf.foldl (fun a s' =>
        match env.validateStepPure s' d with
        | [] => a
        | e :: _ => (false, insertAL a.2 (nameOrId s') e)) acc1
    else acc1
  match errors with
  | [] => acc2
  | e :: _ => (false, insertAL acc2.2 (nameOrId step) e)

/-- `validateDefinition` from the store: run the global pass (all its
findings carry `error` severity), then the per-step pass, and compute
`canDeploy` as the absence of `error`-severity findings.  Returns
`(isValid, validationErrors, canDeploy)`. -/
def validateDefinition (env : Env) (definition : Definition) :
    Bool × List (String × Finding) × Bool :=
  let result := env.validateGlobalPure definition
  let vErrs0 := result.foldl (fun m kv => insertAL m kv.1 (kv.2, Severity.error)) []
  let isValid0 : Bool := result.length == 0
  let r := definition.sequence.foldl (validateStepFold env definition) (isValid0, vErrs0)
  let canDeploy : Bool := (r.2.filter (fun kv => (kv.2).2 == Severity.error)).length == 0
  (r.1, r.2, canDeploy)

/-- `updateDefinition` from the store: decompile the live graph, validate
the resulting definition, and store definition, findings and deployability
together. -/
def updateDefinition (env : Env) (st : WFState) : WFState :=
  let d := reConstructWorklowToDefinition st.nodes st.edges st.v2Properties
  let v := validateDefinition env d
  { st with
    definition := some d
    validationErrors := (v.2).1
    canDeploy := (v.2).2
    isEditorSyncedWithNodes := true }

/-! ## The mutation commands -/

/-- Anchor kind of `addNodeBetween`. -/
inductive AnchorType where
  | node
  | edge
deriving DecidableEq, Repr

/-- A guard in the check chain: throw a `KeepWorkflowStoreError` with the
given message when the condition holds, otherwise continue. -/
def ckIf (c : Bool) (msg : String) (k : Except WFError α) : Except WFError α :=
  if c then .error (.structural msg) else k

/-- The precondition chain of `addNodeBetween` (source lines 85–186): every
check, in source order, each failing fast before any state is written.  The
`!rawStep` guard of the source is subsumed by the typed argument.  On
success, returns the parsed step, the resolved edge, the effective
source/target ids (target redirected to `trigger_end` on the trigger lane)
and the index of the target node. -/
def addNodeChecks (env : Env) (nodeOrEdgeId : String) (rawStep : V2Step)
    (type : AnchorType) (st : WFState) :
    Except WFError (V2Step × Edge × String × String × Nat) :=
  if nodeOrEdgeId = "" then .error (.structural "Node or edge id is not defined")
  else
    let isTriggerComponent : Bool := rawStep.componentType == "trigger"
    match (if isTriggerComponent then env.parseTriggerStep rawStep
           else env.parseTemplateStep rawStep) with
    | none => .error .schema
    | some step =>
      let edgeOpt : Option Edge := match type with
        | .node => st.edges.find? (fun e => e.target == nodeOrEdgeId)
        | .edge => st.edges.find? (fun e => e.id == nodeOrEdgeId)
      match edgeOpt with
      | none => .error (.structural "Edge not found")
      | some edge =>
        let sourceId := edge.source
        let targetId := if sourceId = "trigger_start" then "trigger_end" else edge.target
        ckIf (sourceId == "") "Source is not defined"
          (ckIf (targetId == "") "Target is not defined"
          (ckIf (isTriggerComponent && !canAddTriggerBeforeEdge sourceId targetId)
            "Edge cannot add trigger"
          (ckIf (step.componentType == "switch" && !env.canAddConditionBeforeEdge sourceId targetId)
            "Edge cannot add condition"
          (ckIf (step.componentType == "container" && step.type == "foreach" &&
              !env.canAddForeachBeforeEdge sourceId targetId)
            "Edge cannot add foreach"
          (ckIf (!(sourceId == "trigger_start") && isTriggerComponent)
            "Trigger is only allowed at the start of the workflow"
          (ckIf ((sourceId == "trigger_start") && !isTriggerComponent)
            "Only trigger can be added at the start of the workflow"
          (ckIf (!isTriggerComponent && !canAddStepBeforeEdge sourceId targetId)
            "Edge cannot add step"
          (ckIf (isTriggerComponent && st.nodes.any (fun n => step.id == n.id))
            "Trigger is already in the workflow"
          (match st.nodes.findIdx? (fun n => n.id == targetId) with
           | none => .error (.structural "Target node not found")
           | some targetIndex => .ok (step, edge, sourceId, targetId, targetIndex))))))))))

/-- The mutation phase of `addNodeBetween` (source lines 188–273), reached
only after every check passed: compile the three-step scaffold, splice the
result at the target's position, replace the consumed edge, seed the
property store for reserved trigger-kind ids, then re-layout and rebuild the
definition.  Returns the new node id and the new state. -/
def addNodeApply (env : Env) (rawStep : V2Step) (step : V2Step) (edge : Edge)
    (sourceId targetId : String) (targetIndex : Nat) (st : WFState) :
    String × WFState :=
  let isTriggerComponent : Bool := rawStep.componentType == "trigger"
  let sourceIndexOpt := st.nodes.findIdx? (fun n => n.id == sourceId)
  let newNodeId := if isTriggerComponent then step.id else env.newUuid
  let newStep := step.setId newNodeId
  let scaffold : List V2Step :=
    [.tempNode sourceId edge.label edge.stroke false,
     newStep,
     .tempNode targetId none none true]
  let pw := processWorkflowV2 scaffold
  let finalEdges := pw.2 ++
    st.edges.filter (fun e => !(e.source == sourceId && e.target == targetId))
  let isNested : Bool :=
    (match st.nodes[targetIndex]? with
     | some n => n.isNested
     | none => false) ||
    (match sourceIndexOpt with
     | some j =>
       match st.nodes[j]? with
       | some n => n.isNested
       | none => false
     | none => false)
  let newNodes1 := pw.1.map (fun n => { n with isNested := isNested })
  let spliced := st.nodes.take targetIndex ++ newNodes1 ++ st.nodes.drop targetIndex
  let st1 := { st with
    edges := finalEdges
    nodes := spliced
    isLayouted := false
    changes := st.changes + 1
    lastChangedAt := some env.now }
  let seededProps :=
    if newNodeId = "interval" || newNodeId = "manual" then
      insertAL st1.v2Properties newNodeId
        ((lookupAL newStep.properties newNodeId).getD (.s ""))
    else if newNodeId = "alert" || newNodeId = "incident" then
      insertAL st1.v2Properties newNodeId
        ((lookupAL newStep.properties newNodeId).getD (.o []))
    else st1.v2Properties
  let st2 := { st1 with v2Properties := seededProps }
  (newNodeId, updateDefinition env (onLayout env st2))

/-- `addNodeBetween` from the store (the module-level function, lines
78–239): the check phase, then — only when no check threw — the mutation
phase.  A JS `throw` becomes an `Except.error` paired with the state as it
was at the throw point, which is the untouched input state. -/
def addNodeBetween (env : Env) (nodeOrEdgeId : String) (rawStep : V2Step)
    (type : AnchorType) (st : WFState) : Except WFError String × WFState :=
  match addNodeChecks env nodeOrEdgeId rawStep type st with
  | .error e => (.error e, st)
  | .ok (step, edge, sourceId, targetId, targetIndex) =>
    let r := addNodeApply env rawStep step edge sourceId targetId targetIndex st
    (.ok r.1, r.2)

/-- The argument of `deleteNodes`: the source checks `typeof ids` at
runtime, so a non-string argument is representable. -/
inductive DeleteArg where
  | str (s : String)
  | nonString
deriving DecidableEq, Repr

/-- Dummy node standing for a JS `undefined` element access. -/
def dummyNode : FlowNode := mkStepNode "" "" "" "" [] false

/-- List access with the dummy default. -/
def getNodeD (l : List FlowNode) (i : Nat) : FlowNode := (l[i]?).getD dummyNode

/-- `deleteNodes` from the store.  Non-string arguments and missing targets
return `[]` without touching state; protected ids throw.  The in-place
`nodes[endIndex+1].position` write of the source would raise a JS
`TypeError` when that index is out of bounds (before any `set`), modelled
as a structural error; the node object it mutates is immediately replaced
by `createDefaultNodeV2`, so on the success path the write is dropped (the
source's `islayouted: false` key is a stray key never read back). -/
def deleteNodes (env : Env) (ids : DeleteArg) (st : WFState) :
    Except WFError (List String) × WFState :=
  match ids with
  | .nonString => (.ok [], st)
  | .str s =>
    if PROTECTED_NODE_IDS.contains s then
      (.error (.structural "Cannot delete protected node"), st)
    else
      match st.nodes.findIdx? (fun n => s == n.id) with
      | none => (.ok [], st)
      | some nodeStartIndex =>
        let nodes := st.nodes
        let startNode := getNodeD nodes nodeStartIndex
        let customIdentifier := boundaryId startNode.data.type startNode.id
        let endIndex := (nodes.findIdx? (fun n => n.id == customIdentifier)).getD nodeStartIndex
        let endNode := getNodeD nodes endIndex
        let edges := st.edges
        let idArray := ((nodes.drop nodeStartIndex).take (endIndex + 1 - nodeStartIndex)).map FlowNode.id
        let finalEdges0 := edges.filter (fun e =>
          !(idArray.contains e.source || idArray.contains e.target))
        let edges1 :=
          if triggerKinds.contains s &&
              edges.any (fun e => e.source == "trigger_start" && !(e.target == s)) then
            edges.filter (fun e => !(idArray.contains e.source))
          else edges
        let sources := edges1.filter (fun e => startNode.id == e.target)
        let targets := edges1.filter (fun e => endNode.id == e.source)
        let reconnect := targets.flatMap (fun te =>
          let tgt := if te.source = "trigger_start" then "trigger_end" else te.target
          sources.map (fun se => createCustomEdgeMeta se.source tgt se.label))
        let finalEdges := finalEdges0 ++ reconnect
        if endIndex + 1 < nodes.length then
          let succ := getNodeD nodes (endIndex + 1)
          let newNode := createDefaultNodeV2 succ.data succ.id
          let newNodes := nodes.take nodeStartIndex ++ [newNode] ++ nodes.drop (endIndex + 2)
          let v2p := if triggerKinds.contains s then eraseAL st.v2Properties s
            else st.v2Properties
          let st1 := { st with
            edges := finalEdges
            nodes := newNodes
            v2Properties := v2p
            selectedNode := none
            isLayouted := false
            changes := st.changes + 1
            lastChangedAt := some env.now
            editorOpen := true }
          (.ok [s], updateDefinition env (onLayout env st1))
        else (.error (.structural "TypeError"), st)

/-- Modelled from the library contract of React Flow's `addEdge`: the
connection is appended to the edge list unless an edge with the same source
and target already exists, in which case the list is returned unchanged. -/
def addEdge (e : Edge) (edges : List Edge) : List Edge :=
  if edges.any (fun x => x.source == e.source && x.target == e.target) then edges
  else edges ++ [e]

/-- `onConnect` from the store: a switch source may hold at most two
outgoing edges, a foreach container any number, any other source at most
one; a violating or unresolvable connection is a silent no-op, a legal one
adds the edge and clears both endpoints' draggable flag. -/
def onConnect (source target : String) (st : WFState) : WFState :=
  let sourceNode := st.nodes.find? (fun n => n.id == source)
  let targetNode := st.nodes.find? (fun n => n.id == target)
  let canConnect : Bool :=
    match sourceNode, targetNode with
    | some sn, some _ =>
      if sn.data.componentType = "switch" then
        decide ((st.edges.filter (fun e => e.source == source)).length < 2)
      else if sn.data.componentType == "container" && sn.data.type == "foreach" then true
      else (st.edges.filter (fun e => e.source == source)).length == 0
    | _, _ => false
  if canConnect then
    let newEdge : Edge := { id := "xy-edge__" ++ source ++ "-" ++ target, source := source,
                            target := target, label := none, stroke := none,
                            animated := false, isLayouted := false }
    let st1 := { st with edges := addEdge newEdge st.edges }
    { st1 with nodes := st1.nodes.map (fun n =>
        if n.id = target then { n with prevStepId := some source, isDraggable := false }
        else if n.id = source then { n with isDraggable := false }
        else n) }
  else st

/-! ## Concrete instances used by witnesses -/

/-- A concrete environment: schemas accept every payload, the open
capacity predicates always allow, validators report nothing, layout places
everything at the origin. -/
def env0 : Env :=
  { parseTriggerStep := fun s => some s
    parseTemplateStep := fun s => some s
    canAddConditionBeforeEdge := fun _ _ => true
    canAddForeachBeforeEdge := fun _ _ => true
    newUuid := "uuid-1"
    now := 0
    layoutPos := fun _ => { x := 0, y := 0 }
    validateStepPure := fun _ _ => []
    validateGlobalPure := fun _ => [] }

/-- The store's default state (graph fields). -/
def st0 : WFState :=
  { nodes := []
    edges := []
    v2Properties := []
    selectedNode := none
    selectedEdge := none
    editorOpen := false
    isLayouted := false
    changes := 0
    lastChangedAt := none
    canDeploy := false
    validationErrors := []
    definition := none
    isEditorSyncedWithNodes := true }

/-- A concrete state whose graph already holds a `manual` trigger node on
the trigger lane. -/
def stManual : WFState :=
  { st0 with
    nodes := [mkStepNode "start" "start" "start" "start" [] false,
              mkStepNode "trigger_start" "trigger_start" "trigger" "trigger_start" [] false,
              mkStepNode "manual" "manual" "manual" "trigger" [] false,
              mkStepNode "trigger_end" "trigger_end" "trigger" "trigger_end" [] false,
              mkStepNode "end" "end" "end" "end" [] false]
    edges := [createCustomEdgeMeta "start" "trigger_start" none,
              createCustomEdgeMeta "trigger_start" "manual" none,
              createCustomEdgeMeta "manual" "trigger_end" none,
              createCustomEdgeMeta "trigger_end" "end" none]
    v2Properties := [("manual", .s "")] }

/-- A concrete state holding only the sentinels and the empty trigger-lane
edge. -/
def stLane : WFState :=
  { st0 with
    nodes := [mkStepNode "start" "start" "start" "start" [] false,
              mkStepNode "trigger_start" "trigger_start" "trigger" "trigger_start" [] false,
              mkStepNode "trigger_end" "trigger_end" "trigger" "trigger_end" [] false,
              mkStepNode "end" "end" "end" "end" [] false]
    edges := [createCustomEdgeMeta "start" "trigger_start" none,
              createCustomEdgeMeta "trigger_start" "trigger_end" none,
              createCustomEdgeMeta "trigger_end" "end" none] }

/-- A concrete state holding a single foreach-container node. -/
def stForeach : WFState :=
  { st0 with nodes := [mkStepNode "f" "F" "foreach" "container" [] false] }

/-- A concrete foreach-container node. -/
def nodeF : FlowNode := mkStepNode "f" "F" "foreach" "container" [] false

/-- A concrete task node. -/
def nodeT : FlowNode := mkStepNode "t" "T" "task" "task" [] false

/-- A concrete state holding a foreach container and a task node. -/
def stFT : WFState := { st0 with nodes := [nodeF, nodeT] }

/-- A concrete three-node graph with no edges at all: deleting the middle
node leaves a range with no successor edge. -/
def stDel : WFState :=
  { st0 with nodes := [mkStepNode "a" "A" "task" "task" [] false,
                       mkStepNode "x" "X" "task" "task" [] false,
                       mkStepNode "b" "B" "task" "task" [] false] }

/-- A concrete graph holding a container region between two tasks. -/
def stCont : WFState :=
  { st0 with
    nodes := [mkStepNode "a" "A" "task" "task" [] false,
              mkStepNode "c" "C" "foreach" "container" [] false,
              mkStepNode "x" "X" "task" "task" [] false,
              mkStepNode "foreach__end__c" "foreach__end__c" "foreach" "container__end" [] false,
              mkStepNode "b" "B" "task" "task" [] false]
    edges := [createCustomEdgeMeta "a" "c" none,
              createCustomEdgeMeta "c" "x" none,
              createCustomEdgeMeta "x" "foreach__end__c" none,
              createCustomEdgeMeta "foreach__end__c" "b" none] }

/-! ## Theorems -/

/-- `updateDefinition` never touches the edge list. -/
theorem updateDefinition_edges (env : Env) (s : WFState) :
    (updateDefinition env s).edges = s.edges := rfl

/-- `updateDefinition` never touches the node list. -/
theorem updateDefinition_nodes (env : Env) (s : WFState) :
    (updateDefinition env s).nodes = s.nodes := rfl

/-- `updateDefinition` never touches the property map. -/
theorem updateDefinition_v2Properties (env : Env) (s : WFState) :
    (updateDefinition env s).v2Properties = s.v2Properties := rfl

/-- The edge decoration applied by `onLayout`. -/
theorem onLayout_edges (env : Env) (s : WFState) :
    (onLayout env s).edges = s.edges.map (fun e =>
      { e with animated := strIncludes e.target "empty", isLayouted := true }) := rfl

/-- The node decoration applied by `onLayout`. -/
theorem onLayout_nodes (env : Env) (s : WFState) :
    (onLayout env s).nodes = s.nodes.map (fun n =>
      { n with position := env.layoutPos n, data := { n.data with isLayouted := true } }) := by
  simp only [onLayout, getLayoutedWorkflowElements, List.map_map]
  rfl

/-- `onLayout` never touches the property map. -/
theorem onLayout_v2Properties (env : Env) (s : WFState) :
    (onLayout env s).v2Properties = s.v2Properties := rfl

/-- Guard-chain helper: a guard propagates the existence of a structural
failure of its continuation. -/
theorem ckIf_ex {α : Type} (c : Bool) (msg : String) (k : Except WFError α)
    (h : c = false → ∃ m, k = .error (.structural m)) :
    ∃ m, ckIf c msg k = .error (.structural m) := by
  cases hc : c
  · simpa [ckIf, hc] using h hc
  · exact ⟨msg, by simp [ckIf, hc]⟩

/-- Guard-chain helper: a guard whose condition holds fails structurally. -/
theorem ckIf_ex_true {α : Type} (c : Bool) (msg : String) (k : Except WFError α)
    (h : c = true) : ∃ m, ckIf c msg k = .error (.structural m) :=
  ⟨msg, by simp [ckIf, h]⟩

/-- Guard-chain helper: a guard that succeeded did not fire. -/
theorem ckIf_ok {α : Type} {c : Bool} {msg : String} {k : Except WFError α} {v : α}
    (h : ckIf c msg k = .ok v) : c = false ∧ k = .ok v := by
  cases hc : c
  · rw [ckIf, hc] at h
    simp at h
    exact ⟨rfl, h⟩
  · rw [ckIf, hc] at h
    simp at h

/-- C2: for every protected id in `start`, `end`, `trigger_start`,
`trigger_end`, calling `deleteNodes` on that id always raises a
StructuralError (`KeepWorkflowStoreError`) and returns the state
byte-for-byte unchanged. -/
theorem deleteNodes_protected_throws_unchanged (env : Env) (st : WFState) (pid : String)
    (h : pid ∈ PROTECTED_NODE_IDS) :
    deleteNodes env (.str pid) st =
      (.error (.structural "Cannot delete protected node"), st) := by
  have hc : PROTECTED_NODE_IDS.contains pid = true := by simpa using h
  simp only [deleteNodes, hc]
  simp

/-- Witness for C2 at the concrete id `start` and the default state. -/
theorem deleteNodes_protected_throws_unchanged_witness :
    "start" ∈ PROTECTED_NODE_IDS ∧
      deleteNodes env0 (.str "start") st0 =
        (.error (.structural "Cannot delete protected node"), st0) :=
  ⟨by decide, deleteNodes_protected_throws_unchanged env0 st0 "start" (by decide)⟩

/-- C10: a delete target that is not protected and matches no node — and
likewise a non-string argument — makes `deleteNodes` return `[]` without
throwing and leaves the whole state (nodes, edges and properties included)
unchanged. -/
theorem deleteNodes_missing_target_noop (env : Env) (st : WFState) (s : String)
    (hp : s ∉ PROTECTED_NODE_IDS) (hm : ∀ n ∈ st.nodes, n.id ≠ s) :
    deleteNodes env (.str s) st = (.ok [], st) ∧
      deleteNodes env .nonString st = (.ok [], st) := by
  refine ⟨?_, rfl⟩
  have hc : PROTECTED_NODE_IDS.contains s = false := by simpa using hp
  have hf : st.nodes.findIdx? (fun n => s == n.id) = none := by
    rw [List.findIdx?_eq_none_iff]
    intro n hn
    simpa using (hm n hn).symm
  simp only [deleteNodes, hc, hf]
  simp

/-- Witness for C10 at a concrete state holding one unrelated node. -/
theorem deleteNodes_missing_target_noop_witness :
    ("ghost" ∉ PROTECTED_NODE_IDS ∧
        ∀ n ∈ ({ st0 with nodes := [mkStepNode "a" "A" "task" "task" [] false] } :
          WFState).nodes, n.id ≠ "ghost") ∧
      deleteNodes env0 (.str "ghost")
          { st0 with nodes := [mkStepNode "a" "A" "task" "task" [] false] } =
        (.ok [], { st0 with nodes := [mkStepNode "a" "A" "task" "task" [] false] }) :=
  ⟨⟨by decide, by decide⟩,
    (deleteNodes_missing_target_noop env0
      { st0 with nodes := [mkStepNode "a" "A" "task" "task" [] false] } "ghost"
      (by decide) (by decide)).1⟩

/-- C8: `validateDefinition` returns `canDeploy = true` exactly when none
of the findings it records carries `error` severity, for every definition
and every behaviour of the global and per-step validators; in particular
`warning` findings never block deployment. -/
theorem validateDefinition_canDeploy_iff (env : Env) (d : Definition) :
    ((validateDefinition env d).2).2 = true ↔
      ∀ kv ∈ ((validateDefinition env d).2).1, (kv.2).2 ≠ Severity.error := by
  unfold validateDefinition
  simp only [beq_iff_eq, List.length_eq_zero, List.filter_eq_nil_iff]

/-- C1: every failing `addNodeBetween` call — whether a SchemaError from
payload parsing or a StructuralError from anchor resolution, edge-type
legality, or the duplicate-trigger check — throws before any state is
touched: the node list, the edge list and the properties map after the
failed call equal their values before it. -/
theorem addNodeBetween_error_no_mutation (env : Env) (nodeOrEdgeId : String)
    (rawStep : V2Step) (ty : AnchorType) (st : WFState) (e : WFError) (st' : WFState)
    (h : addNodeBetween env nodeOrEdgeId rawStep ty st = (.error e, st')) :
    st'.nodes = st.nodes ∧ st'.edges = st.edges ∧ st'.v2Properties = st.v2Properties := by
  cases hc : addNodeChecks env nodeOrEdgeId rawStep ty st with
  | error e2 =>
    rw [addNodeBetween, hc] at h
    have h2 : st' = st := (congrArg Prod.snd h).symm
    rw [h2]
    exact ⟨rfl, rfl, rfl⟩
  | ok v =>
    obtain ⟨step, edge, sId, tId, tIdx⟩ := v
    rw [addNodeBetween, hc] at h
    exact absurd (congrArg Prod.fst h) (by simp)

/-- Witness for C1: a concrete failing call (anchor resolves to no edge)
leaves the default state untouched. -/
theorem addNodeBetween_error_no_mutation_witness :
    addNodeBetween env0 "e1" (V2Step.step "s" "S" "task" "task" []) .edge st0 =
      (.error (.structural "Edge not found"), st0) ∧
    (st0.nodes = st0.nodes ∧ st0.edges = st0.edges ∧ st0.v2Properties = st0.v2Properties) :=
  ⟨rfl, addNodeBetween_error_no_mutation env0 "e1" (V2Step.step "s" "S" "task" "task" [])
    .edge st0 (.structural "Edge not found") st0 rfl⟩

/-- C4: for every graph already containing a trigger node of a given kind,
inserting another trigger step of the same kind (same reserved id, however
anchored) raises a StructuralError and the state is unchanged. -/
theorem addNodeBetween_duplicate_trigger (env : Env) (nodeOrEdgeId : String)
    (rawStep step : V2Step) (ty : AnchorType) (st : WFState)
    (hct : rawStep.componentType = "trigger")
    (hp : env.parseTriggerStep rawStep = some step)
    (hdup : ∃ n ∈ st.nodes, n.id = step.id) :
    ∃ msg, addNodeBetween env nodeOrEdgeId rawStep ty st = (.error (.structural msg), st) := by
  have hb : (rawStep.componentType == "trigger") = true := by simp [hct]
  have hany : (st.nodes.any (fun n => step.id == n.id)) = true := by
    rcases hdup with ⟨n, hn, hid⟩
    simp only [List.any_eq_true]
    exact ⟨n, hn, by simp [hid]⟩
  have hchk : ∃ msg, addNodeChecks env nodeOrEdgeId rawStep ty st = .error (.structural msg) := by
    unfold addNodeChecks
    by_cases h0 : nodeOrEdgeId = ""
    · rw [if_pos h0]; exact ⟨_, rfl⟩
    · rw [if_neg h0]
      simp only [hb, if_true, hp]
      cases ty
      · -- anchor kind: node
        cases hE : st.edges.find? (fun e => e.target == nodeOrEdgeId) with
        | none => exact ⟨_, rfl⟩
        | some edge =>
          refine ckIf_ex _ _ _ (fun _ => ?_)
          refine ckIf_ex _ _ _ (fun _ => ?_)
          refine ckIf_ex _ _ _ (fun _ => ?_)
          refine ckIf_ex _ _ _ (fun _ => ?_)
          refine ckIf_ex _ _ _ (fun _ => ?_)
          refine ckIf_ex _ _ _ (fun _ => ?_)
          refine ckIf_ex _ _ _ (fun _ => ?_)
          refine ckIf_ex _ _ _ (fun _ => ?_)
          exact ckIf_ex_true _ _ _ (by simp [hb, hany])
      · -- anchor kind: edge
        cases hE : st.edges.find? (fun e => e.id == nodeOrEdgeId) with
        | none => exact ⟨_, rfl⟩
        | some edge =>
          refine ckIf_ex _ _ _ (fun _ => ?_)
          refine ckIf_ex _ _ _ (fun _ => ?_)
          refine ckIf_ex _ _ _ (fun _ => ?_)
          refine ckIf_ex _ _ _ (fun _ => ?_)
          refine ckIf_ex _ _ _ (fun _ => ?_)
          refine ckIf_ex _ _ _ (fun _ => ?_)
          refine ckIf_ex _ _ _ (fun _ => ?_)
          refine ckIf_ex _ _ _ (fun _ => ?_)
          exact ckIf_ex_true _ _ _ (by simp [hb, hany])
  obtain ⟨msg, hm⟩ := hchk
  exact ⟨msg, by rw [addNodeBetween, hm]⟩

/-- Witness for C4: re-inserting a `manual` trigger into a graph already
holding one fails structurally and leaves the state unchanged. -/
theorem addNodeBetween_duplicate_trigger_witness :
    ((V2Step.triggerS "manual" "manual" []).componentType = "trigger" ∧
     env0.parseTriggerStep (.triggerS "manual" "manual" []) =
       some (.triggerS "manual" "manual" []) ∧
     ∃ n ∈ stManual.nodes, n.id = (V2Step.triggerS "manual" "manual" []).id) ∧
    ∃ msg, addNodeBetween env0 "trigger_start-manual" (.triggerS "manual" "manual" [])
      .edge stManual = (.error (.structural msg), stManual) :=
  ⟨⟨rfl, rfl, by decide⟩,
    addNodeBetween_duplicate_trigger env0 "trigger_start-manual"
      (.triggerS "manual" "manual" []) (.triggerS "manual" "manual" []) .edge stManual
      rfl rfl (by decide)⟩

/-- `addNodeApply` returns the parsed step's own id for trigger components. -/
theorem addNodeApply_fst (env : Env) (rawStep step : V2Step) (edge : Edge)
    (sId tId : String) (tIdx : Nat) (st : WFState)
    (h : (rawStep.componentType == "trigger") = true) :
    (addNodeApply env rawStep step edge sId tId tIdx st).1 = step.id := by
  unfold addNodeApply
  simp [h]

/-- The edge list produced by `addNodeApply`: the compiled scaffold edges
followed by the old edges minus the consumed one, each carrying the layout
decoration. -/
theorem addNodeApply_edges (env : Env) (rawStep step : V2Step) (edge : Edge)
    (sId tId : String) (tIdx : Nat) (st : WFState) :
    (addNodeApply env rawStep step edge sId tId tIdx st).2.edges =
      ((processWorkflowV2
        [.tempNode sId edge.label edge.stroke false,
         step.setId (if (rawStep.componentType == "trigger") = true then step.id else env.newUuid),
         .tempNode tId none none true]).2 ++
        st.edges.filter (fun e => !(e.source == sId && e.target == tId))).map
        (fun e => { e with animated := strIncludes e.target "empty", isLayouted := true }) := rfl

/-- C5: a trigger-component step inserted on an edge whose source is not
`trigger_start` raises a StructuralError with the state unchanged; a
non-trigger step inserted on an edge whose source is `trigger_start` raises
a StructuralError with the state unchanged; and a trigger inserted on an
edge whose source is `trigger_start` has its insertion target redirected to
`trigger_end` regardless of the edge's original target — on success the new
trigger is wired `trigger_start → new → trigger_end`. -/
theorem addNodeBetween_trigger_lane (env : Env) (nodeOrEdgeId : String)
    (rawStep step : V2Step) (ty : AnchorType) (st : WFState) (edge : Edge)
    (hE : (match ty with
           | AnchorType.node => st.edges.find? (fun e => e.target == nodeOrEdgeId)
           | AnchorType.edge => st.edges.find? (fun e => e.id == nodeOrEdgeId)) = some edge) :
    (rawStep.componentType = "trigger" → env.parseTriggerStep rawStep = some step →
      edge.source ≠ "trigger_start" →
      ∃ msg, addNodeBetween env nodeOrEdgeId rawStep ty st = (.error (.structural msg), st)) ∧
    (rawStep.componentType ≠ "trigger" → env.parseTemplateStep rawStep = some step →
      edge.source = "trigger_start" →
      ∃ msg, addNodeBetween env nodeOrEdgeId rawStep ty st = (.error (.structural msg), st)) ∧
    (∀ tIdx, rawStep.componentType = "trigger" → env.parseTriggerStep rawStep = some step →
      step.componentType = "trigger" → edge.source = "trigger_start" →
      (∀ n ∈ st.nodes, n.id ≠ step.id) →
      st.nodes.findIdx? (fun n => n.id == "trigger_end") = some tIdx →
      nodeOrEdgeId ≠ "" →
      ∃ st', addNodeBetween env nodeOrEdgeId rawStep ty st = (.ok step.id, st') ∧
        (∃ e ∈ st'.edges, e.source = step.id ∧ e.target = "trigger_end") ∧
        (∃ e ∈ st'.edges, e.source = "trigger_start" ∧ e.target = step.id)) := by
  refine ⟨?_, ?_, ?_⟩
  · intro hct hp hsrc
    have hb : (rawStep.componentType == "trigger") = true := by simp [hct]
    have hchk : ∃ msg, addNodeChecks env nodeOrEdgeId rawStep ty st = .error (.structural msg) := by
      unfold addNodeChecks
      by_cases h0 : nodeOrEdgeId = ""
      · rw [if_pos h0]; exact ⟨_, rfl⟩
      · rw [if_neg h0]
        simp only [hb, if_true, hp, hE]
        refine ckIf_ex _ _ _ (fun _ => ?_)
        refine ckIf_ex _ _ _ (fun _ => ?_)
        exact ckIf_ex_true _ _ _ (by simp [canAddTriggerBeforeEdge, hsrc])
    obtain ⟨msg, hm⟩ := hchk
    exact ⟨msg, by rw [addNodeBetween, hm]⟩
  · intro hct hp hsrc
    have hb : (rawStep.componentType == "trigger") = false := by simp [hct]
    have hchk : ∃ msg, addNodeChecks env nodeOrEdgeId rawStep ty st = .error (.structural msg) := by
      unfold addNodeChecks
      by_cases h0 : nodeOrEdgeId = ""
      · rw [if_pos h0]; exact ⟨_, rfl⟩
      · rw [if_neg h0]
        simp only [hb, if_false, Bool.false_eq_true, ite_false, hp, hE]
        refine ckIf_ex _ _ _ (fun _ => ?_)
        refine ckIf_ex _ _ _ (fun _ => ?_)
        refine ckIf_ex _ _ _ (fun _ => ?_)
        refine ckIf_ex _ _ _ (fun _ => ?_)
        refine ckIf_ex _ _ _ (fun _ => ?_)
        refine ckIf_ex _ _ _ (fun _ => ?_)
        exact ckIf_ex_true _ _ _ (by simp [hsrc, hb])
    obtain ⟨msg, hm⟩ := hchk
    exact ⟨msg, by rw [addNodeBetween, hm]⟩
  · intro tIdx hct hp hstep hsrc hnodup hidx h0
    have hb : (rawStep.componentType == "trigger") = true := by simp [hct]
    have hany : (st.nodes.any (fun n => step.id == n.id)) = false := by
      simp only [List.any_eq_false]
      intro n hn
      simpa using (hnodup n hn).symm
    have hchk : addNodeChecks env nodeOrEdgeId rawStep ty st =
        .ok (step, edge, edge.source, "trigger_end", tIdx) := by
      unfold addNodeChecks
      rw [if_neg h0]
      simp only [hb, if_true, hp, hE, hsrc]
      simp only [ckIf, canAddTriggerBeforeEdge, canAddStepBeforeEdge, hstep, hany, hidx]
      simp
    -- now the success-state computation
    rw [addNodeBetween, hchk]
    refine ⟨(addNodeApply env rawStep step edge edge.source "trigger_end" tIdx st).2, ?_, ?_, ?_⟩
    · dsimp only
      rw [addNodeApply_fst env rawStep step edge edge.source "trigger_end" tIdx st hb]
    · rw [addNodeApply_edges]
      simp only [hb, if_true]
      rcases step with ⟨i, n, t, ct, p⟩ | ⟨i, n, t, p, bf, bt⟩ | ⟨i, n, t, p, sq⟩ | ⟨i, t, p⟩ | _ | _ | ⟨i, l, c, nn⟩ <;>
        simp_all [V2Step.componentType, V2Step.id, V2Step.setId, processWorkflowV2,
          compileSeq, compileStep, firstId, createCustomEdgeMeta, mkStepNode]
    · rw [addNodeApply_edges]
      simp only [hb, if_true]
      rcases step with ⟨i, n, t, ct, p⟩ | ⟨i, n, t, p, bf, bt⟩ | ⟨i, n, t, p, sq⟩ | ⟨i, t, p⟩ | _ | _ | ⟨i, l, c, nn⟩ <;>
        simp_all [V2Step.componentType, V2Step.id, V2Step.setId, processWorkflowV2,
          compileSeq, compileStep, firstId, createCustomEdgeMeta, mkStepNode]

/-- Witness for C5: inserting a `manual` trigger on the empty trigger-lane
edge of a concrete graph succeeds and wires it between `trigger_start` and
`trigger_end`. -/
theorem addNodeBetween_trigger_lane_witness :
    ∃ st', addNodeBetween env0 "trigger_start-trigger_end" (.triggerS "manual" "manual" [])
        .edge stLane = (.ok "manual", st') ∧
      (∃ e ∈ st'.edges, e.source = "manual" ∧ e.target = "trigger_end") ∧
      (∃ e ∈ st'.edges, e.source = "trigger_start" ∧ e.target = "manual") :=
  ((addNodeBetween_trigger_lane env0 "trigger_start-trigger_end"
      (.triggerS "manual" "manual" []) (.triggerS "manual" "manual" []) .edge stLane
      (createCustomEdgeMeta "trigger_start" "trigger_end" none)
      (by decide)).2.2) 2 rfl rfl rfl rfl (by decide) (by decide) (by decide)

/-- Counterexample to C6 as stated: with a foreach-container source whose
connection target matches no node, `onConnect` is a no-op — no edge from the
foreach source is added, refuting "if the source is a foreach container the
edge is always added". -/
theorem onConnect_foreach_missing_target_cex :
    (∃ n ∈ stForeach.nodes, n.id = "f" ∧ n.data.componentType = "container" ∧
      n.data.type = "foreach") ∧
    onConnect "f" "t" stForeach = stForeach ∧
    ∀ e ∈ (onConnect "f" "t" stForeach).edges, ¬(e.source = "f" ∧ e.target = "t") :=
  ⟨by decide, rfl, by decide⟩

/-- After `addEdge`, an edge with the requested source and target is
present (either the freshly appended one or the pre-existing duplicate). -/
theorem addEdge_mem (e : Edge) (edges : List Edge) :
    ∃ x ∈ addEdge e edges, x.source = e.source ∧ x.target = e.target := by
  unfold addEdge
  split
  · next h =>
    obtain ⟨x, hx, hc⟩ := List.any_eq_true.mp h
    refine ⟨x, hx, ?_⟩
    simp only [Bool.and_eq_true, beq_iff_eq] at hc
    exact hc
  · exact ⟨e, by simp, rfl, rfl⟩

/-- C6 amended: provided both endpoints resolve to existing nodes, a switch
source gains the connection only while it has fewer than two outgoing
edges, a foreach container source always gains it, and any other source
gains it only while it has zero outgoing edges; a call violating a cap (or
naming a missing endpoint) is a no-op without a throw, and on success an
edge `source → target` is present and both endpoints' draggable flag is
cleared. -/
theorem onConnect_caps (st : WFState) (source target : String) (sn tn : FlowNode)
    (hs : st.nodes.find? (fun n => n.id == source) = some sn)
    (ht : st.nodes.find? (fun n => n.id == target) = some tn) :
    (sn.data.componentType = "switch" →
      (((st.edges.filter (fun e => e.source == source)).length < 2 →
        (∃ e ∈ (onConnect source target st).edges, e.source = source ∧ e.target = target) ∧
        (∀ n ∈ (onConnect source target st).nodes,
          (n.id = source ∨ n.id = target) → n.isDraggable = false)) ∧
       (¬((st.edges.filter (fun e => e.source == source)).length < 2) →
        onConnect source target st = st))) ∧
    (sn.data.componentType = "container" → sn.data.type = "foreach" →
      (∃ e ∈ (onConnect source target st).edges, e.source = source ∧ e.target = target) ∧
      (∀ n ∈ (onConnect source target st).nodes,
        (n.id = source ∨ n.id = target) → n.isDraggable = false)) ∧
    (sn.data.componentType ≠ "switch" →
      ¬(sn.data.componentType = "container" ∧ sn.data.type = "foreach") →
      (((st.edges.filter (fun e => e.source == source)).length = 0 →
        (∃ e ∈ (onConnect source target st).edges, e.source = source ∧ e.target = target) ∧
        (∀ n ∈ (onConnect source target st).nodes,
          (n.id = source ∨ n.id = target) → n.isDraggable = false)) ∧
       ((st.edges.filter (fun e => e.source == source)).length ≠ 0 →
        onConnect source target st = st))) := by
  have hsuccess : ∀ (hcc : (match st.nodes.find? (fun n => n.id == source),
        st.nodes.find? (fun n => n.id == target) with
      | some sn, some _ =>
        if sn.data.componentType = "switch" then
          decide ((st.edges.filter (fun e => e.source == source)).length < 2)
        else if sn.data.componentType == "container" && sn.data.type == "foreach" then true
        else (st.edges.filter (fun e => e.source == source)).length == 0
      | _, _ => false) = true),
      (∃ e ∈ (onConnect source target st).edges, e.source = source ∧ e.target = target) ∧
      (∀ n ∈ (onConnect source target st).nodes,
        (n.id = source ∨ n.id = target) → n.isDraggable = false) := by
    intro hcc
    simp only [onConnect]
    rw [hcc]
    rw [if_pos rfl]
    constructor
    · obtain ⟨x, hx, h1, h2⟩ := addEdge_mem
        { id := "xy-edge__" ++ source ++ "-" ++ target, source := source, target := target,
          label := none, stroke := none, animated := false, isLayouted := false } st.edges
      exact ⟨x, hx, h1, h2⟩
    · intro n hn hid
      obtain ⟨m, hm, rfl⟩ := List.mem_map.mp hn
      by_cases h1 : m.id = target
      · rw [if_pos h1]
      · by_cases h2 : m.id = source
        · rw [if_neg h1, if_pos h2]
        · rw [if_neg h1, if_neg h2] at hid ⊢
          rcases hid with h | h
          · exact absurd h h2
          · exact absurd h h1
  have hfail : ∀ (hcc : (match st.nodes.find? (fun n => n.id == source),
        st.nodes.find? (fun n => n.id == target) with
      | some sn, some _ =>
        if sn.data.componentType = "switch" then
          decide ((st.edges.filter (fun e => e.source == source)).length < 2)
        else if sn.data.componentType == "container" && sn.data.type == "foreach" then true
        else (st.edges.filter (fun e => e.source == source)).length == 0
      | _, _ => false) = false),
      onConnect source target st = st := by
    intro hcc
    simp only [onConnect]
    rw [hcc]
    simp
  refine ⟨?_, ?_, ?_⟩
  · intro hsw
    constructor
    · intro hlt
      apply hsuccess
      rw [hs, ht]
      simp [hsw, hlt]
    · intro hge
      apply hfail
      rw [hs, ht]
      simp [hsw, hge]
  · intro hco hfe
    apply hsuccess
    rw [hs, ht]
    simp [hco, hfe]
  · intro hnsw hnfe
    constructor
    · intro h0
      apply hsuccess
      rw [hs, ht]
      simp only [if_neg hnsw]
      rw [if_neg ?_]
      · simp [h0]
      · simp only [Bool.and_eq_true, beq_iff_eq]
        intro hc
        exact hnfe ⟨hc.1, hc.2⟩
    · intro hne
      apply hfail
      rw [hs, ht]
      simp only [if_neg hnsw]
      rw [if_neg ?_]
      · simp [hne]
      · simp only [Bool.and_eq_true, beq_iff_eq]
        intro hc
        exact hnfe ⟨hc.1, hc.2⟩

/-- Witness for C6 at a concrete foreach-to-task connection. -/
theorem onConnect_caps_witness :
    (stFT.nodes.find? (fun n => n.id == "f") = some nodeF ∧
     stFT.nodes.find? (fun n => n.id == "t") = some nodeT) ∧
    ((∃ e ∈ (onConnect "f" "t" stFT).edges, e.source = "f" ∧ e.target = "t") ∧
     (∀ n ∈ (onConnect "f" "t" stFT).nodes, (n.id = "f" ∨ n.id = "t") → n.isDraggable = false)) :=
  ⟨⟨rfl, rfl⟩, ((onConnect_caps stFT "f" "t" nodeF nodeT rfl rfl).2.1) rfl rfl⟩

/-- The full success path of `deleteNodes`: with the target found at `i`,
the range closed at `endIdx` (boundary node or the target itself) and a
node after the range, the command removes the range's rows, replaces the
successor with a default-recreated node, filters and reconnects the edges,
erases a trigger-kind property, then re-layouts and rebuilds the
definition. -/
theorem deleteNodes_success_shape (env : Env) (st : WFState) (s : String) (i endIdx : Nat)
    (startNode succ : FlowNode)
    (hp : s ∉ PROTECTED_NODE_IDS)
    (hfind : st.nodes.findIdx? (fun n => s == n.id) = some i)
    (hstart : st.nodes[i]? = some startNode)
    (hend : endIdx = ((st.nodes.findIdx? (fun n =>
      n.id == boundaryId startNode.data.type startNode.id)).getD i))
    (hlt : endIdx + 1 < st.nodes.length)
    (hsucc : st.nodes[endIdx + 1]? = some succ)
    (htrig : (triggerKinds.contains s &&
      st.edges.any (fun e => e.source == "trigger_start" && !(e.target == s))) = false) :
    deleteNodes env (.str s) st =
      (.ok [s],
       updateDefinition env (onLayout env
        { st with
          edges :=
            (st.edges.filter (fun e =>
              !((((st.nodes.drop i).take (endIdx + 1 - i)).map FlowNode.id).contains e.source ||
                (((st.nodes.drop i).take (endIdx + 1 - i)).map FlowNode.id).contains e.target))) ++
            ((st.edges.filter (fun e => (getNodeD st.nodes endIdx).id == e.source)).flatMap (fun te =>
              (st.edges.filter (fun e => startNode.id == e.target)).map (fun se =>
                createCustomEdgeMeta se.source
                  (if te.source = "trigger_start" then "trigger_end" else te.target) se.label)))
          nodes := st.nodes.take i ++ [createDefaultNodeV2 succ.data succ.id] ++
            st.nodes.drop (endIdx + 2)
          v2Properties := if triggerKinds.contains s then eraseAL st.v2Properties s
            else st.v2Properties
          selectedNode := none
          isLayouted := false
          changes := st.changes + 1
          lastChangedAt := some env.now
          editorOpen := true })) := by
  have hc : PROTECTED_NODE_IDS.contains s = false := by simpa using hp
  unfold deleteNodes
  simp only [hc, Bool.false_eq_true, if_false, hfind]
  rw [show getNodeD st.nodes i = startNode from by simp [getNodeD, hstart]]
  rw [← hend]
  rw [htrig]
  simp only [Bool.false_eq_true, if_false, if_pos hlt]
  rw [show getNodeD st.nodes (endIdx + 1) = succ from by simp [getNodeD, hsucc]]

/-- The layout decoration does not change node ids. -/
theorem map_id_layout (env : Env) (l : List FlowNode) :
    (l.map (fun n => { n with position := env.layoutPos n, data := { n.data with isLayouted := true } })).map FlowNode.id = l.map FlowNode.id := by
  rw [List.map_map]
  exact List.map_congr_left (fun a _ => rfl)

/-- C3 amended: for a non-protected node present in the graph (target at
index `i`), `deleteNodes` resolves the deletable range up to the matching
boundary node named `<type>__end__<id>` (the single node when absent),
removes every edge with an endpoint inside the range, reconnects every
predecessor of the range's entry to every successor of the range's exit
preserving the predecessor edges' labels, and keeps every other edge
intact — leaving no dangling edges.  Instead of inserting an "empty"
placeholder when no successor remains, the node that follows the range
positionally is always recreated as a default node under its own id and
step data, the rest of the node list is untouched, and the whole call
fails when no such node exists.  The trigger-kind shortcut (deleting one
of several configured triggers skips reconnection) is excluded by
hypothesis. -/
theorem deleteNodes_range (env : Env) (st : WFState) (s : String) (i endIdx : Nat)
    (startNode endNode succ : FlowNode)
    (hp : s ∉ PROTECTED_NODE_IDS)
    (hfind : st.nodes.findIdx? (fun n => s == n.id) = some i)
    (hstart : st.nodes[i]? = some startNode)
    (hend : endIdx = ((st.nodes.findIdx? (fun n =>
      n.id == boundaryId startNode.data.type startNode.id)).getD i))
    (hendNode : st.nodes[endIdx]? = some endNode)
    (hle : i ≤ endIdx)
    (hlt : endIdx + 1 < st.nodes.length)
    (hsucc : st.nodes[endIdx + 1]? = some succ)
    (htrig : (triggerKinds.contains s &&
      st.edges.any (fun e => e.source == "trigger_start" && !(e.target == s))) = false)
    (hpred : ∀ e ∈ st.edges, e.target = startNode.id →
      e.source ∉ ((st.nodes.drop i).take (endIdx + 1 - i)).map FlowNode.id)
    (hsuccT : ∀ e ∈ st.edges, e.source = endNode.id →
      e.target ∉ ((st.nodes.drop i).take (endIdx + 1 - i)).map FlowNode.id)
    (hts : "trigger_start" ∉ ((st.nodes.drop i).take (endIdx + 1 - i)).map FlowNode.id) :
    (deleteNodes env (.str s) st).1 = .ok [s] ∧
    (∀ e ∈ (deleteNodes env (.str s) st).2.edges,
      e.source ∉ ((st.nodes.drop i).take (endIdx + 1 - i)).map FlowNode.id ∧
      e.target ∉ ((st.nodes.drop i).take (endIdx + 1 - i)).map FlowNode.id) ∧
    (∀ p ∈ st.edges, p.target = startNode.id → ∀ q ∈ st.edges, q.source = endNode.id →
      ∃ e ∈ (deleteNodes env (.str s) st).2.edges,
        e.source = p.source ∧ e.target = q.target ∧ e.label = p.label) ∧
    (∀ e ∈ st.edges,
      e.source ∉ ((st.nodes.drop i).take (endIdx + 1 - i)).map FlowNode.id →
      e.target ∉ ((st.nodes.drop i).take (endIdx + 1 - i)).map FlowNode.id →
      ∃ e2 ∈ (deleteNodes env (.str s) st).2.edges,
        e2.id = e.id ∧ e2.source = e.source ∧ e2.target = e.target ∧ e2.label = e.label) ∧
    ((deleteNodes env (.str s) st).2.nodes.map FlowNode.id =
      (st.nodes.take i).map FlowNode.id ++ [succ.id] ++
        (st.nodes.drop (endIdx + 2)).map FlowNode.id) ∧
    (∃ m, (deleteNodes env (.str s) st).2.nodes[i]? = some m ∧ m.id = succ.id ∧
      m.data.name = succ.data.name ∧ m.data.type = succ.data.type ∧
      m.data.componentType = succ.data.componentType ∧
      m.data.properties = succ.data.properties) := by
  have hshape := deleteNodes_success_shape env st s i endIdx startNode succ hp hfind hstart
    hend hlt hsucc htrig
  have hEndName : getNodeD st.nodes endIdx = endNode := by simp [getNodeD, hendNode]
  rw [hshape]
  simp only [updateDefinition_edges, onLayout_edges, updateDefinition_nodes, onLayout_nodes,
    hEndName]
  have hEndMem : endNode.id ∈ ((st.nodes.drop i).take (endIdx + 1 - i)).map FlowNode.id := by
    refine List.mem_map.mpr ⟨endNode, ?_, rfl⟩
    have hq : ((st.nodes.drop i).take (endIdx + 1 - i))[endIdx - i]? = some endNode := by
      rw [List.getElem?_take, if_pos (by omega), List.getElem?_drop,
        show i + (endIdx - i) = endIdx from by omega, hendNode]
    obtain ⟨hj, hv⟩ := List.getElem?_eq_some_iff.mp hq
    exact hv ▸ List.getElem_mem hj
  have hEndNotTS : endNode.id ≠ "trigger_start" := fun hcontra => hts (hcontra ▸ hEndMem)
  refine ⟨trivial, ?_, ?_, ?_, ?_, ?_⟩
  · -- (2) no dangling edges
    intro e he
    obtain ⟨pre, hpre, rfl⟩ := List.mem_map.mp he
    rcases List.mem_append.mp hpre with hF | hR
    · obtain ⟨hmem, hcond⟩ := List.mem_filter.mp hF
      simp at hcond
      simpa using hcond
    · obtain ⟨te, hte, hmap⟩ := List.mem_flatMap.mp hR
      obtain ⟨se, hse, rfl⟩ := List.mem_map.mp hmap
      obtain ⟨hteMem, hteCond⟩ := List.mem_filter.mp hte
      obtain ⟨hseMem, hseCond⟩ := List.mem_filter.mp hse
      have hteSrc : te.source = endNode.id := (beq_iff_eq.mp hteCond).symm
      have hseTgt : se.target = startNode.id := (beq_iff_eq.mp hseCond).symm
      have h1 : se.source ∉ ((st.nodes.drop i).take (endIdx + 1 - i)).map FlowNode.id :=
        hpred se hseMem hseTgt
      have h2 : te.target ∉ ((st.nodes.drop i).take (endIdx + 1 - i)).map FlowNode.id :=
        hsuccT te hteMem hteSrc
      have hif : (if te.source = "trigger_start" then "trigger_end" else te.target) = te.target := by
        rw [if_neg]
        rw [hteSrc]
        exact hEndNotTS
      constructor
      · simpa [createCustomEdgeMeta] using h1
      · simpa [createCustomEdgeMeta, hif] using h2
  · -- (3) reconnection preserves predecessor labels
    intro p hpMem hpt q hqMem hqs
    have hqNotTS : ¬(q.source = "trigger_start") := by rw [hqs]; exact hEndNotTS
    refine ⟨_, List.mem_map.mpr ⟨createCustomEdgeMeta p.source q.target p.label, ?_, rfl⟩,
      rfl, rfl, rfl⟩
    refine List.mem_append_right _ ?_
    refine List.mem_flatMap.mpr ⟨q, ?_, ?_⟩
    · exact List.mem_filter.mpr ⟨hqMem, by simp [hqs]⟩
    · refine List.mem_map.mpr ⟨p, ?_, ?_⟩
      · exact List.mem_filter.mpr ⟨hpMem, by simp [hpt]⟩
      · rw [if_neg hqNotTS]
  · -- (4) untouched edges survive with identity intact
    intro e heMem h1 h2
    refine ⟨_, List.mem_map.mpr ⟨e, List.mem_append_left _ ?_, rfl⟩, rfl, rfl, rfl, rfl⟩
    refine List.mem_filter.mpr ⟨heMem, ?_⟩
    simp
    exact ⟨by simpa using h1, by simpa using h2⟩
  · -- (5) the node list loses exactly the range, successor kept in place
    rw [map_id_layout]
    simp [createDefaultNodeV2]
  · -- (6) the successor node is recreated under its own id and data
    have hlen : (st.nodes.take i).length = i := by
      rw [List.length_take]
      omega
    refine ⟨(fun n => { n with position := env.layoutPos n, data := { n.data with isLayouted := true } }) (createDefaultNodeV2 succ.data succ.id), ?_, rfl, rfl, rfl, rfl, rfl⟩
    rw [List.getElem?_map, List.append_assoc,
      List.getElem?_append_right (le_of_eq hlen), hlen]
    simp

/-- Counterexample to C3 as stated: deleting the middle task of a
three-node, zero-edge graph leaves a range with no remaining successor, yet
the resulting node list is exactly the two surviving nodes — no "empty"
placeholder step is inserted at the range's position. -/
theorem deleteNodes_no_placeholder_cex :
    (deleteNodes env0 (.str "x") stDel).1 = .ok ["x"] ∧
    stDel.edges = [] ∧
    ((deleteNodes env0 (.str "x") stDel).2.nodes.map
      (fun n => (n.id, n.data.name, n.data.type, n.data.componentType))) =
      [("a", "A", "task", "task"), ("b", "B", "task", "task")] ∧
    (deleteNodes env0 (.str "x") stDel).2.edges = [] :=
  ⟨rfl, rfl, rfl, rfl⟩

/-- Witness for C3 (amended) at a concrete container deletion: deleting
the container removes its whole region and reconnects around it. -/
theorem deleteNodes_range_witness :
    (deleteNodes env0 (.str "c") stCont).1 = .ok ["c"] ∧
    (∀ p ∈ stCont.edges, p.target = "c" → ∀ q ∈ stCont.edges, q.source = "foreach__end__c" →
      ∃ e ∈ (deleteNodes env0 (.str "c") stCont).2.edges,
        e.source = p.source ∧ e.target = q.target ∧ e.label = p.label) :=
  let H := deleteNodes_range env0 stCont "c" 1 3
    (mkStepNode "c" "C" "foreach" "container" [] false)
    (mkStepNode "foreach__end__c" "foreach__end__c" "foreach" "container__end" [] false)
    (mkStepNode "b" "B" "task" "task" [] false)
    (by decide) (by decide) (by decide) (by decide) (by decide) (by decide) (by decide)
    (by decide) (by decide) (by decide) (by decide) (by decide)
  ⟨H.1, H.2.2.1⟩

/-- C9: `onLayout` preserves node and edge identity, count and order; it
changes only node positions and the `isLayouted` flags, and it marks an
edge animated exactly when the edge's target id contains the `empty`
placeholder marker. -/
theorem onLayout_frame (env : Env) (st : WFState) :
    ((onLayout env st).nodes.map FlowNode.id = st.nodes.map FlowNode.id) ∧
    ((onLayout env st).edges.map Edge.id = st.edges.map Edge.id) ∧
    List.Forall₂ (fun n' n =>
        n'.id = n.id ∧ n'.data.id = n.data.id ∧ n'.data.name = n.data.name ∧
        n'.data.type = n.data.type ∧ n'.data.componentType = n.data.componentType ∧
        n'.data.properties = n.data.properties ∧ n'.data.isLayouted = true ∧
        n'.isDraggable = n.isDraggable ∧ n'.isNested = n.isNested ∧
        n'.prevStepId = n.prevStepId)
      (onLayout env st).nodes st.nodes ∧
    List.Forall₂ (fun e' e =>
        e'.id = e.id ∧ e'.source = e.source ∧ e'.target = e.target ∧
        e'.label = e.label ∧ e'.stroke = e.stroke ∧ e'.isLayouted = true ∧
        (e'.animated = true ↔ strIncludes e.target "empty" = true))
      (onLayout env st).edges st.edges := by
  refine ⟨?_, ?_, ?_, ?_⟩
  · simp [onLayout, getLayoutedWorkflowElements, Function.comp]
  · simp [onLayout, getLayoutedWorkflowElements, Function.comp]
  · simp only [onLayout, getLayoutedWorkflowElements, List.map_map]
    induction st.nodes with
    | nil => simp
    | cons n rest ih => exact List.Forall₂.cons (by simp) ih
  · simp only [onLayout, getLayoutedWorkflowElements]
    induction st.edges with
    | nil => simp
    | cons e rest ih => exact List.Forall₂.cons (by simp) ih

theorem stepOfData_mk (id nm ty ct : String) (props : List (String × PValue)) (b : Bool) :
    stepOfData (mkStepNode id nm ty ct props b).data = .step id nm ty ct props := rfl

theorem convertFalse_noop (hid : String) (stack : List DCtx) (acc : List V2Step)
    (h : hid ∉ stackStops stack) : convertFalse hid stack acc = (stack, acc) := by
  cases stack with
  | nil => rfl
  | cons f rest =>
    cases f with
    | inFalse sw stopT bId pAcc =>
      simp [stackStops] at h
      simp [convertFalse, Ne.symm h.1]
    | inTrue sw fS bId pAcc => rfl
    | inBody c bId pAcc => rfl

theorem closeOrDispatch_away (E : List Edge) (n : FlowNode) (stack : List DCtx)
    (acc : List V2Step) (h : n.id ∉ stackStops stack) :
    closeOrDispatch E n stack acc = dispatchCore E n acc stack := by
  cases stack with
  | nil => rfl
  | cons f rest =>
    cases f with
    | inFalse sw stopT bId pAcc => rfl
    | inTrue sw fS bId pAcc =>
      simp [stackStops] at h
      simp [closeOrDispatch, Ne.symm h.1]
    | inBody c bId pAcc =>
      simp [stackStops] at h
      simp [closeOrDispatch, Ne.symm h.1]

theorem firstId_append (l1 l2 : List V2Step) (next : String) :
    firstId (l1 ++ l2) next = firstId l1 (firstId l2 next) := by
  cases l1 <;> rfl

theorem firstId_mem (seq : List V2Step) (d : String) :
    firstId seq d = d ∨ firstId seq d ∈ collectIds seq := by
  cases seq with
  | nil => exact Or.inl rfl
  | cons s rest =>
    right
    cases s <;> simp [firstId, collectIds, V2Step.id]

theorem compileSeq_append (l1 l2 : List V2Step) (next : String) (b : Bool) :
    compileSeq (l1 ++ l2) next b =
      ((compileSeq l1 (firstId l2 next) b).1 ++ (compileSeq l2 next b).1,
       (compileSeq l1 (firstId l2 next) b).2 ++ (compileSeq l2 next b).2) := by
  induction l1 with
  | nil => simp [compileSeq]
  | cons s l1' ih =>
    simp only [List.cons_append, compileSeq, List.append_eq]
    rw [firstId_append, ih]
    simp [List.append_assoc]

theorem compile_edge_sources (seq : List V2Step) (nxt : String) (b : Bool) :
    ∀ e ∈ (compileSeq seq nxt b).2, e.source ∈ collectIds seq := by
  match seq with
  | [] => intro e he; simp [compileSeq] at he
  | .step id nm ty ct props :: rest =>
    intro e he
    simp only [compileSeq, compileStep, List.cons_append, List.nil_append,
      List.mem_cons] at he
    rcases he with rfl | he
    · simp [collectIds, createCustomEdgeMeta, V2Step.id]
    · simp only [collectIds, List.mem_cons]
      exact Or.inr (compile_edge_sources rest _ b e he)
  | .triggerS id ty props :: rest =>
    intro e he
    simp only [compileSeq, compileStep, List.cons_append, List.nil_append,
      List.mem_cons] at he
    rcases he with rfl | he
    · simp [collectIds, createCustomEdgeMeta, V2Step.id]
    · simp only [collectIds, List.mem_cons]
      exact Or.inr (compile_edge_sources rest _ b e he)
  | .startS :: rest =>
    intro e he
    simp only [compileSeq, compileStep, List.nil_append] at he
    simp only [collectIds, List.mem_cons]
    exact Or.inr (compile_edge_sources rest _ b e he)
  | .endS :: rest =>
    intro e he
    simp only [compileSeq, compileStep, List.nil_append] at he
    simp only [collectIds, List.mem_cons]
    exact Or.inr (compile_edge_sources rest _ b e he)
  | .tempNode id lbl color nn :: rest =>
    intro e he
    simp only [compileSeq, compileStep, List.mem_append] at he
    rcases he with he | he
    · cases nn with
      | true => simp at he
      | false =>
        simp only [Bool.false_eq_true, if_false, List.mem_singleton] at he
        subst he
        simp [collectIds, createCustomEdgeMeta, V2Step.id]
    · simp only [collectIds, List.mem_cons]
      exact Or.inr (compile_edge_sources rest _ b e he)
  | .switchS id nm ty props bf bt :: rest =>
    intro e he
    simp only [compileSeq, compileStep, List.cons_append, List.nil_append,
      List.mem_cons, List.mem_append, List.mem_singleton, List.mem_nil_iff,
      or_false] at he
    simp only [collectIds, List.mem_cons, List.mem_append, List.mem_singleton]
    rcases he with rfl | rfl | ((he | he) | rfl) | he
    · simp [createCustomEdgeMeta]
    · simp [createCustomEdgeMeta]
    · have h := compile_edge_sources bf _ true e he
      tauto
    · have h := compile_edge_sources bt _ true e he
      tauto
    · simp [createCustomEdgeMeta]
    · have h := compile_edge_sources rest _ b e he
      tauto
  | .containerS id nm ty props sq :: rest =>
    intro e he
    simp only [compileSeq, compileStep, List.cons_append, List.nil_append,
      List.mem_cons, List.mem_append, List.mem_singleton, List.mem_nil_iff,
      or_false] at he
    simp only [collectIds, List.mem_cons, List.mem_append, List.mem_singleton]
    rcases he with rfl | (he | rfl) | he
    · simp [createCustomEdgeMeta]
    · have h := compile_edge_sources sq _ true e he
      tauto
    · simp [createCustomEdgeMeta]
    · have h := compile_edge_sources rest _ b e he
      tauto

theorem mem_collect_head (s : V2Step) (rest : List V2Step) :
    s.id ∈ collectIds (s :: rest) := by
  cases s <;> simp [collectIds, V2Step.id]

theorem hP_mono {P : List Edge} {l1 l2 : List String}
    (hsub : ∀ x, x ∈ l2 → x ∈ l1)
    (hP : ∀ e ∈ P, e.source ∉ l1 ∨ e.label = none) :
    ∀ e ∈ P, e.source ∉ l2 ∨ e.label = none := by
  intro e he
  rcases hP e he with h | h
  · exact Or.inl (fun hx => h (hsub _ hx))
  · exact Or.inr h

theorem findBranch_prefix_none (P : List Edge) (id lbl : String) (l1 : List String)
    (hid : id ∈ l1)
    (hP : ∀ e ∈ P, e.source ∉ l1 ∨ e.label = none) :
    (P.find? fun e => e.source == id && e.label == some lbl) = none := by
  rw [List.find?_eq_none]
  intro x hx
  rcases hP x hx with h | h
  · have hne : x.source ≠ id := fun hs => h (hs ▸ hid)
    simp [hne]
  · simp [h]

theorem collect_cons (s : V2Step) (rest : List V2Step) :
    collectIds (s :: rest) = collectIds [s] ++ collectIds rest := by
  cases s <;> simp [collectIds]

theorem compileStep_edge_sources (s : V2Step) (nxt : String) (b : Bool) :
    ∀ e ∈ (compileStep s nxt b).2, e.source ∈ collectIds [s] := by
  intro e he
  have h2 : e ∈ (compileSeq [s] nxt b).2 := by
    simp [compileSeq]
    exact he
  exact compile_edge_sources [s] nxt b e h2

theorem edgesOk_compiled (seq : List V2Step) (nxt : String) (b : Bool) (P S : List Edge)
    (hN : (collectIds seq).Nodup)
    (hP : ∀ e ∈ P, e.source ∉ collectIds seq ∨ e.label = none) :
    EdgesOk (P ++ (compileSeq seq nxt b).2 ++ S) seq := by
  match seq with
  | [] => simp [EdgesOk]
  | s :: rest =>
    rw [collect_cons] at hN
    have hNh : (collectIds [s]).Nodup := hN.of_append_left
    have hNt : (collectIds rest).Nodup := hN.of_append_right
    have hds : ∀ x ∈ collectIds [s], x ∉ collectIds rest := fun x hx =>
      List.disjoint_left.mp (List.disjoint_of_nodup_append hN) hx
    have hsubH : ∀ x, x ∈ collectIds [s] → x ∈ collectIds (s :: rest) := fun x hx => by
      rw [collect_cons]; exact List.mem_append.mpr (Or.inl hx)
    have hsubT : ∀ x, x ∈ collectIds rest → x ∈ collectIds (s :: rest) := fun x hx => by
      rw [collect_cons]; exact List.mem_append.mpr (Or.inr hx)
    have hrecR : EdgesOk ((P ++ (compileStep s (firstId rest nxt) b).2) ++
        (compileSeq rest nxt b).2 ++ S) rest :=
      edgesOk_compiled rest nxt b (P ++ (compileStep s (firstId rest nxt) b).2) S hNt
        (by
          intro e he
          rcases List.mem_append.mp he with he | he
          · exact hP_mono hsubT hP e he
          · exact Or.inl (hds _ (compileStep_edge_sources s _ b e he)))
    match hs : s, hNh, hds, hsubH, hP, hrecR with
    | .step id nm ty ct props, _, _, _, _, hrecR =>
      simp only [EdgesOk]
      simpa [compileSeq, compileStep, List.append_assoc] using hrecR
    | .triggerS id ty props, _, _, _, _, hrecR =>
      simp only [EdgesOk]
      simpa [compileSeq, compileStep, List.append_assoc] using hrecR
    | .startS, _, _, _, _, hrecR =>
      simp only [EdgesOk]
      simpa [compileSeq, compileStep, List.append_assoc] using hrecR
    | .endS, _, _, _, _, hrecR =>
      simp only [EdgesOk]
      simpa [compileSeq, compileStep, List.append_assoc] using hrecR
    | .tempNode id lbl color nn, _, _, _, _, hrecR =>
      simp only [EdgesOk]
      simpa [compileSeq, compileStep, List.append_assoc] using hrecR
    | .containerS id nm ty props sq, hNh, hds, hsubH, hP, hrecR =>
      simp only [EdgesOk]
      have hNsq : (collectIds sq).Nodup := by
        simp only [collectIds, List.append_nil] at hNh
        rw [List.nodup_cons] at hNh
        exact hNh.2.of_append_left
      constructor
      · have hrec := edgesOk_compiled sq (boundaryId ty id) true
          (P ++ [createCustomEdgeMeta id (firstId sq (boundaryId ty id)) none])
          ([createCustomEdgeMeta (boundaryId ty id) (firstId rest nxt) none] ++
            ((compileSeq rest nxt b).2 ++ S)) hNsq
          (by
            intro e he
            rcases List.mem_append.mp he with he | he
            · refine hP_mono (fun x hx => hsubH x ?_) hP e he
              simp only [collectIds, List.mem_cons, List.mem_append, List.mem_singleton]
              tauto
            · rw [List.mem_singleton] at he
              subst he
              exact Or.inr rfl)
        simpa [compileSeq, compileStep, List.append_assoc] using hrec
      · simpa [compileSeq, compileStep, List.append_assoc] using hrecR
    | .switchS id nm ty props bf bt, hNh, hds, hsubH, hP, hrecR =>
      have hNh2 : (id :: (collectIds bf ++ collectIds bt ++ [boundaryId ty id])).Nodup := by
        simpa only [collectIds, List.append_nil] using hNh
      rw [List.nodup_cons] at hNh2
      have hidbf : id ∉ collectIds bf := fun hx => hNh2.1 (by
        simp only [List.mem_append]
        tauto)
      have hidbt : id ∉ collectIds bt := fun hx => hNh2.1 (by
        simp only [List.mem_append]
        tauto)
      have hNbf : (collectIds bf).Nodup := hNh2.2.of_append_left.of_append_left
      have hNbt : (collectIds bt).Nodup := hNh2.2.of_append_left.of_append_right
      have hDfb : (collectIds bf).Disjoint (collectIds bt) :=
        List.disjoint_of_nodup_append hNh2.2.of_append_left

      simp only [EdgesOk]
      refine ⟨?_, ?_, ?_, ?_⟩
      · simp only [compileSeq, compileStep, branchTarget, findBranch]
        rw [List.find?_append, List.find?_append]
        rw [show (P.find? fun e => e.source == id && e.label == some "true") = none from by
          rw [List.find?_eq_none]
          intro x hx
          rcases hP x hx with h | h
          · have hne : x.source ≠ id := fun hs => h (hs ▸ hsubH id (by
              simp [collectIds]))
            simp [hne]
          · simp [h]]
        simp [List.find?_append, List.find?, createCustomEdgeMeta, Option.or]
      · have hrec := edgesOk_compiled bf (boundaryId ty id) true
          (P ++ [createCustomEdgeMeta id (firstId bf (boundaryId ty id)) (some "false"),
                 createCustomEdgeMeta id (firstId bt (boundaryId ty id)) (some "true")])
          ((compileSeq bt (boundaryId ty id) true).2 ++
            ([createCustomEdgeMeta (boundaryId ty id) (firstId rest nxt) none] ++
              ((compileSeq rest nxt b).2 ++ S))) hNbf
          (by
            intro e he
            rcases List.mem_append.mp he with he | he
            · refine hP_mono (fun x hx => hsubH x ?_) hP e he
              simp only [collectIds, List.mem_cons, List.mem_append, List.mem_singleton]
              tauto
            · rcases List.mem_cons.mp he with rfl | he
              · exact Or.inl (by simpa [createCustomEdgeMeta] using hidbf)
              · rw [List.mem_singleton] at he
                subst he
                exact Or.inl (by simpa [createCustomEdgeMeta] using hidbf))
        simpa [compileSeq, compileStep, List.append_assoc] using hrec
      · have hrec := edgesOk_compiled bt (boundaryId ty id) true
          ((P ++ [createCustomEdgeMeta id (firstId bf (boundaryId ty id)) (some "false"),
                  createCustomEdgeMeta id (firstId bt (boundaryId ty id)) (some "true")]) ++
            (compileSeq bf (boundaryId ty id) true).2)
          ([createCustomEdgeMeta (boundaryId ty id) (firstId rest nxt) none] ++
            ((compileSeq rest nxt b).2 ++ S)) hNbt
          (by
            intro e he
            rcases List.mem_append.mp he with he | he
            · rcases List.mem_append.mp he with he | he
              · refine hP_mono (fun x hx => hsubH x ?_) hP e he
                simp only [collectIds, List.mem_cons, List.mem_append, List.mem_singleton]
                tauto
              · rcases List.mem_cons.mp he with rfl | he
                · exact Or.inl (by simpa [createCustomEdgeMeta] using hidbt)
                · rw [List.mem_singleton] at he
                  subst he
                  exact Or.inl (by simpa [createCustomEdgeMeta] using hidbt)
            · exact Or.inl (fun hx =>
                List.disjoint_left.mp hDfb
                  (compile_edge_sources bf (boundaryId ty id) true e he) hx))
        simpa [compileSeq, compileStep, List.append_assoc] using hrec
      · simpa [compileSeq, compileStep, List.append_assoc] using hrecR
termination_by sizeOf seq
decreasing_by
all_goals ((try subst hs); simp; try omega)


theorem foldMain_cons_leaf (E : List Edge) (n : FlowNode) (l : List FlowNode)
    (stack : List DCtx) (acc : List V2Step)
    (h : n.id ∉ stackStops stack) (hne : n.id ≠ "end")
    (hct : n.data.componentType ≠ "switch") (hct2 : n.data.componentType ≠ "container") :
    foldMain E (n :: l) stack acc = foldMain E l stack (stepOfData n.data :: acc) := by
  simp only [foldMain]
  rw [convertFalse_noop n.id stack acc h]
  rw [closeOrDispatch_away E n stack acc h]
  simp [dispatchCore, hne, hct, hct2]

theorem foldMain_cons_switch (E : List Edge) (n : FlowNode) (l : List FlowNode)
    (stack : List DCtx) (acc : List V2Step)
    (h : n.id ∉ stackStops stack) (hne : n.id ≠ "end")
    (hct : n.data.componentType = "switch") :
    foldMain E (n :: l) stack acc =
      foldMain E l (.inFalse n.data (branchTarget E n.id "true")
        (boundaryId n.data.type n.id) acc :: stack) [] := by
  simp only [foldMain]
  rw [convertFalse_noop n.id stack acc h]
  rw [closeOrDispatch_away E n stack acc h]
  simp [dispatchCore, hne, hct]

theorem foldMain_cons_container (E : List Edge) (n : FlowNode) (l : List FlowNode)
    (stack : List DCtx) (acc : List V2Step)
    (h : n.id ∉ stackStops stack) (hne : n.id ≠ "end")
    (hct : n.data.componentType = "container") :
    foldMain E (n :: l) stack acc =
      foldMain E l (.inBody n.data (boundaryId n.data.type n.id) acc :: stack) [] := by
  simp only [foldMain]
  rw [convertFalse_noop n.id stack acc h]
  rw [closeOrDispatch_away E n stack acc h]
  have hct1 : n.data.componentType ≠ "switch" := by rw [hct]; decide
  simp [dispatchCore, hne, hct, hct1]

theorem foldMain_cons_closeTrue (E : List Edge) (n : FlowNode) (l : List FlowNode)
    (sw : NodeData) (fS : List V2Step) (bId : String) (pAcc : List V2Step)
    (stack : List DCtx) (acc : List V2Step) (h : bId = n.id) :
    foldMain E (n :: l) (.inTrue sw fS bId pAcc :: stack) acc =
      foldMain E l stack (mkSwitch sw fS acc.reverse :: pAcc) := by
  subst h
  simp [foldMain, convertFalse, closeOrDispatch]

theorem foldMain_cons_closeBody (E : List Edge) (n : FlowNode) (l : List FlowNode)
    (c : NodeData) (bId : String) (pAcc : List V2Step)
    (stack : List DCtx) (acc : List V2Step) (h : bId = n.id) :
    foldMain E (n :: l) (.inBody c bId pAcc :: stack) acc =
      foldMain E l stack (mkContainer c acc.reverse :: pAcc) := by
  subst h
  simp [foldMain, convertFalse, closeOrDispatch]

theorem foldMain_cons_convert (E : List Edge) (n : FlowNode) (l : List FlowNode)
    (sw : NodeData) (stopT bId : String) (pAcc : List V2Step)
    (stack : List DCtx) (acc : List V2Step) (h : stopT = n.id) :
    foldMain E (n :: l) (.inFalse sw stopT bId pAcc :: stack) acc =
      foldMain E (n :: l) (.inTrue sw acc.reverse bId pAcc :: stack) [] := by
  subst h
  simp [foldMain, convertFalse]

theorem compileSeq_cons_fst (s : V2Step) (tl : List V2Step) (nxt : String) (b : Bool)
    (hleg : stepsLegal (s :: tl) = true) :
    ∃ ms, (compileSeq (s :: tl) nxt b).1 =
      mkStepNode s.id s.name s.type s.componentType s.properties b :: ms := by
  cases s with
  | step id nm ty ct props =>
    refine ⟨_, by
      simp only [compileSeq, compileStep, V2Step.id, V2Step.name, V2Step.type,
        V2Step.componentType, V2Step.properties, List.cons_append, List.nil_append,
        List.append_assoc]
      rfl⟩
  | switchS id nm ty props bf bt =>
    refine ⟨_, by
      simp only [compileSeq, compileStep, V2Step.id, V2Step.name, V2Step.type,
        V2Step.componentType, V2Step.properties, List.cons_append, List.nil_append,
        List.append_assoc]
      rfl⟩
  | containerS id nm ty props sq =>
    refine ⟨_, by
      simp only [compileSeq, compileStep, V2Step.id, V2Step.name, V2Step.type,
        V2Step.componentType, V2Step.properties, List.cons_append, List.nil_append,
        List.append_assoc]
      rfl⟩
  | triggerS id ty props => simp [stepsLegal] at hleg
  | startS => simp [stepsLegal] at hleg
  | endS => simp [stepsLegal] at hleg
  | tempNode id lbl c nn => simp [stepsLegal] at hleg

theorem compiled_head (seq : List V2Step) (nxt : String) (b : Bool)
    (dn : FlowNode) (l : List FlowNode) (hleg : stepsLegal seq = true)
    (hdn : dn.id = nxt) :
    ∃ m ms, (compileSeq seq nxt b).1 ++ (dn :: l) = m :: ms ∧ m.id = firstId seq nxt := by
  match seq with
  | [] => exact ⟨dn, l, by simp [compileSeq], hdn⟩
  | s :: tl =>
    obtain ⟨ms, hms⟩ := compileSeq_cons_fst s tl nxt b hleg
    exact ⟨_, _, by rw [hms]; rfl, rfl⟩

theorem foldMain_cons_leaf_mk (E : List Edge) (id nm ty ct : String)
    (props : List (String × PValue)) (b : Bool) (l : List FlowNode)
    (stack : List DCtx) (acc : List V2Step)
    (h : id ∉ stackStops stack) (hne : id ≠ "end")
    (h1 : ct ≠ "switch") (h2 : ct ≠ "container") :
    foldMain E (mkStepNode id nm ty ct props b :: l) stack acc =
      foldMain E l stack (.step id nm ty ct props :: acc) :=
  foldMain_cons_leaf E _ l stack acc h hne h1 h2

theorem foldMain_cons_switch_mk (E : List Edge) (id nm ty : String)
    (props : List (String × PValue)) (b : Bool) (l : List FlowNode)
    (stack : List DCtx) (acc : List V2Step)
    (h : id ∉ stackStops stack) (hne : id ≠ "end") :
    foldMain E (mkStepNode id nm ty "switch" props b :: l) stack acc =
      foldMain E l (.inFalse (mkStepNode id nm ty "switch" props b).data
        (branchTarget E id "true") (boundaryId ty id) acc :: stack) [] :=
  foldMain_cons_switch E _ l stack acc h hne rfl

theorem foldMain_cons_container_mk (E : List Edge) (id nm ty : String)
    (props : List (String × PValue)) (b : Bool) (l : List FlowNode)
    (stack : List DCtx) (acc : List V2Step)
    (h : id ∉ stackStops stack) (hne : id ≠ "end") :
    foldMain E (mkStepNode id nm ty "container" props b :: l) stack acc =
      foldMain E l (.inBody (mkStepNode id nm ty "container" props b).data
        (boundaryId ty id) acc :: stack) [] :=
  foldMain_cons_container E _ l stack acc h hne rfl

theorem fold_sim (E : List Edge) (seq : List V2Step) :
    ∀ (nxt : String) (b : Bool) (rest : List FlowNode) (stack : List DCtx)
      (acc : List V2Step),
    stepsLegal seq = true →
    EdgesOk E seq →
    (collectIds seq).Nodup →
    (∀ x ∈ collectIds seq, x ∉ stackStops stack ∧ x ≠ "end") →
    foldMain E ((compileSeq seq nxt b).1 ++ rest) stack acc =
      foldMain E rest stack (seq.reverse ++ acc) := by
  match seq with
  | [] =>
    intro nxt b rest stack acc _ _ _ _
    simp [compileSeq]
  | .step id nm ty ct props :: tl =>
    intro nxt b rest stack acc hleg hE hN hF
    have hFh := hF _ (mem_collect_head _ tl)
    have hcts : ct ≠ "switch" := by
      intro h; subst h; simp [stepsLegal] at hleg
    have hctc : ct ≠ "container" := by
      intro h; subst h; simp [stepsLegal] at hleg
    have hlegtl : stepsLegal tl = true := by
      simp only [stepsLegal, Bool.and_eq_true] at hleg
      exact hleg.2
    have hEtl : EdgesOk E tl := by simpa only [EdgesOk] using hE
    rw [collect_cons] at hN hF
    have hNtl := hN.of_append_right
    have hFtl : ∀ x ∈ collectIds tl, x ∉ stackStops stack ∧ x ≠ "end" := fun x hx =>
      hF x (List.mem_append.mpr (Or.inr hx))
    rw [show (compileSeq (.step id nm ty ct props :: tl) nxt b).1 =
      mkStepNode id nm ty ct props b :: (compileSeq tl nxt b).1 from by
        simp [compileSeq, compileStep]]
    rw [List.cons_append]
    rw [foldMain_cons_leaf_mk E id nm ty ct props b _ stack acc hFh.1 hFh.2 hcts hctc]
    rw [fold_sim E tl nxt b rest stack _ hlegtl hEtl hNtl hFtl]
    simp [List.append_assoc]
  | .switchS id nm ty props bf bt :: tl =>
    intro nxt b rest stack acc hleg hE hN hF
    have hFh := hF _ (mem_collect_head _ tl)
    simp only [stepsLegal, Bool.and_eq_true] at hleg
    simp only [EdgesOk] at hE
    rw [collect_cons] at hN hF
    have hNh := hN.of_append_left
    have hNt := hN.of_append_right
    have hNh2 : (id :: (collectIds bf ++ collectIds bt ++ [boundaryId ty id])).Nodup := by
      simpa only [collectIds, List.append_nil] using hNh
    rw [List.nodup_cons] at hNh2
    have hNbf : (collectIds bf).Nodup := hNh2.2.of_append_left.of_append_left
    have hNbt : (collectIds bt).Nodup := hNh2.2.of_append_left.of_append_right
    have hDfb : (collectIds bf).Disjoint (collectIds bt) :=
      List.disjoint_of_nodup_append hNh2.2.of_append_left
    have hDbId := List.disjoint_of_nodup_append hNh2.2
    have hmemH : ∀ x ∈ collectIds bf ++ collectIds bt ++ [boundaryId ty id],
        x ∈ collectIds [V2Step.switchS id nm ty props bf bt] := by
      intro x hx
      simp only [collectIds, List.append_nil, List.mem_cons]
      exact Or.inr hx
    have htT : firstId bt (boundaryId ty id) ∈
        collectIds bt ++ [boundaryId ty id] := by
      rcases firstId_mem bt (boundaryId ty id) with h | h
      · rw [h]; exact List.mem_append.mpr (Or.inr (List.mem_singleton.mpr rfl))
      · exact List.mem_append.mpr (Or.inl h)
    have hFbf : ∀ x ∈ collectIds bf,
        x ∉ stackStops (.inFalse (mkStepNode id nm ty "switch" props b).data
          (firstId bt (boundaryId ty id)) (boundaryId ty id) acc :: stack) ∧
          x ≠ "end" := by
      intro x hx
      have hxH := hF x (List.mem_append.mpr (Or.inl (hmemH _ (List.mem_append.mpr
        (Or.inl (List.mem_append.mpr (Or.inl hx)))))))
      refine ⟨?_, hxH.2⟩
      simp only [stackStops, List.mem_cons, not_or]
      refine ⟨?_, ?_, hxH.1⟩
      · intro hxt
        rcases List.mem_append.mp htT with h | h
        · exact List.disjoint_left.mp hDfb hx (hxt ▸ h)
        · rw [List.mem_singleton] at h
          exact List.disjoint_left.mp hDbId
            (List.mem_append.mpr (Or.inl hx)) (List.mem_singleton.mpr (hxt.trans h))
      · intro hxb
        exact List.disjoint_left.mp hDbId
          (List.mem_append.mpr (Or.inl hx)) (List.mem_singleton.mpr hxb)
    have hFbt : ∀ x ∈ collectIds bt,
        x ∉ stackStops (.inTrue (mkStepNode id nm ty "switch" props b).data bf
          (boundaryId ty id) acc :: stack) ∧ x ≠ "end" := by
      intro x hx
      have hxH := hF x (List.mem_append.mpr (Or.inl (hmemH _ (List.mem_append.mpr
        (Or.inl (List.mem_append.mpr (Or.inr hx)))))))
      refine ⟨?_, hxH.2⟩
      simp only [stackStops, List.mem_cons, not_or]
      refine ⟨?_, hxH.1⟩
      intro hxb
      exact List.disjoint_left.mp hDbId
        (List.mem_append.mpr (Or.inr hx)) (List.mem_singleton.mpr hxb)
    have hFtl : ∀ x ∈ collectIds tl, x ∉ stackStops stack ∧ x ≠ "end" := fun x hx =>
      hF x (List.mem_append.mpr (Or.inr hx))
    rw [show (compileSeq (.switchS id nm ty props bf bt :: tl) nxt b).1 =
      mkStepNode id nm ty "switch" props b ::
        ((compileSeq bf (boundaryId ty id) true).1 ++
          ((compileSeq bt (boundaryId ty id) true).1 ++
            (mkStepNode (boundaryId ty id) (boundaryId ty id) ty "switch__end" props true ::
              (compileSeq tl nxt b).1))) from by
        simp [compileSeq, compileStep]]
    rw [List.cons_append]
    rw [foldMain_cons_switch_mk E id nm ty props b _ stack acc hFh.1 hFh.2]
    rw [hE.1]
    rw [List.append_assoc, List.append_assoc, List.cons_append]
    rw [fold_sim E bf (boundaryId ty id) true _ _ [] hleg.1.1 hE.2.1 hNbf hFbf]
    rw [List.append_nil]
    obtain ⟨m, ms, hsplit, hmid⟩ := compiled_head bt (boundaryId ty id) true
      (mkStepNode (boundaryId ty id) (boundaryId ty id) ty "switch__end" props true)
      ((compileSeq tl nxt b).1 ++ rest) hleg.1.2 rfl
    rw [hsplit]
    rw [foldMain_cons_convert E m ms
      (mkStepNode id nm ty "switch" props b).data
      (firstId bt (boundaryId ty id)) (boundaryId ty id) acc stack bf.reverse hmid.symm]
    rw [List.reverse_reverse]
    rw [← hsplit]
    rw [fold_sim E bt (boundaryId ty id) true _ _ [] hleg.1.2 hE.2.2.1 hNbt hFbt]
    rw [List.append_nil]
    rw [foldMain_cons_closeTrue E _ _
      (mkStepNode id nm ty "switch" props b).data bf (boundaryId ty id) acc stack
      bt.reverse rfl]
    rw [show mkSwitch (mkStepNode id nm ty "switch" props b).data bf bt.reverse.reverse =
      V2Step.switchS id nm ty props bf bt from by simp [mkSwitch, mkStepNode]]
    rw [fold_sim E tl nxt b rest stack _ hleg.2 hE.2.2.2 hNt hFtl]
    simp [List.append_assoc]
  | .containerS id nm ty props sq :: tl =>
    intro nxt b rest stack acc hleg hE hN hF
    have hFh := hF _ (mem_collect_head _ tl)
    simp only [stepsLegal, Bool.and_eq_true] at hleg
    simp only [EdgesOk] at hE
    rw [collect_cons] at hN hF
    have hNh := hN.of_append_left
    have hNt := hN.of_append_right
    have hNh2 : (id :: (collectIds sq ++ [boundaryId ty id])).Nodup := by
      simpa only [collectIds, List.append_nil] using hNh
    rw [List.nodup_cons] at hNh2
    have hNsq : (collectIds sq).Nodup := hNh2.2.of_append_left
    have hDbId := List.disjoint_of_nodup_append hNh2.2
    have hmemH : ∀ x ∈ collectIds sq ++ [boundaryId ty id],
        x ∈ collectIds [V2Step.containerS id nm ty props sq] := by
      intro x hx
      simp only [collectIds, List.append_nil, List.mem_cons]
      exact Or.inr hx
    have hFsq : ∀ x ∈ collectIds sq,
        x ∉ stackStops (.inBody (mkStepNode id nm ty "container" props b).data
          (boundaryId ty id) acc :: stack) ∧ x ≠ "end" := by
      intro x hx
      have hxH := hF x (List.mem_append.mpr (Or.inl (hmemH _ (List.mem_append.mpr
        (Or.inl hx)))))
      refine ⟨?_, hxH.2⟩
      simp only [stackStops, List.mem_cons, not_or]
      refine ⟨?_, hxH.1⟩
      intro hxb
      exact List.disjoint_left.mp hDbId hx (List.mem_singleton.mpr hxb)
    have hFtl : ∀ x ∈ collectIds tl, x ∉ stackStops stack ∧ x ≠ "end" := fun x hx =>
      hF x (List.mem_append.mpr (Or.inr hx))
    rw [show (compileSeq (.containerS id nm ty props sq :: tl) nxt b).1 =
      mkStepNode id nm ty "container" props b ::
        ((compileSeq sq (boundaryId ty id) true).1 ++
          (mkStepNode (boundaryId ty id) (boundaryId ty id) ty "container__end" props true ::
            (compileSeq tl nxt b).1)) from by
        simp [compileSeq, compileStep]]
    rw [List.cons_append]
    rw [foldMain_cons_container_mk E id nm ty props b _ stack acc hFh.1 hFh.2]
    rw [List.append_assoc, List.cons_append]
    rw [fold_sim E sq (boundaryId ty id) true _ _ [] hleg.1 hE.1 hNsq hFsq]
    rw [List.append_nil]
    rw [foldMain_cons_closeBody E _ _
      (mkStepNode id nm ty "container" props b).data (boundaryId ty id) acc stack
      sq.reverse rfl]
    rw [show mkContainer (mkStepNode id nm ty "container" props b).data sq.reverse.reverse =
      V2Step.containerS id nm ty props sq from by simp [mkContainer, mkStepNode]]
    rw [fold_sim E tl nxt b rest stack _ hleg.2 hE.2 hNt hFtl]
    simp [List.append_assoc]
  | .triggerS id ty props :: tl =>
    intro nxt b rest stack acc hleg _ _ _
    simp [stepsLegal] at hleg
  | .startS :: tl =>
    intro nxt b rest stack acc hleg _ _ _
    simp [stepsLegal] at hleg
  | .endS :: tl =>
    intro nxt b rest stack acc hleg _ _ _
    simp [stepsLegal] at hleg
  | .tempNode id lbl c nn :: tl =>
    intro nxt b rest stack acc hleg _ _ _
    simp [stepsLegal] at hleg
termination_by sizeOf seq
decreasing_by
all_goals simp; try omega

theorem takeWhile_append_all {α} (p : α → Bool) (l1 l2 : List α)
    (h1 : ∀ x ∈ l1, p x = true)
    (h2 : ∀ y ys, l2 = y :: ys → p y = false) :
    (l1 ++ l2).takeWhile p = l1 := by
  induction l1 with
  | nil =>
    cases l2 with
    | nil => rfl
    | cons y ys => simp [List.takeWhile_cons, h2 y ys rfl]
  | cons x xs ih =>
    simp only [List.cons_append, List.takeWhile_cons,
      h1 x (List.mem_cons_self x xs), ih (fun z hz => h1 z (List.mem_cons_of_mem x hz)),
      if_true]

theorem compileLane_labels (trigs : List V2Step) :
    ∀ e ∈ (compileLane trigs).2, e.label = none := by
  intro e he
  cases trigs with
  | nil =>
    simp only [compileLane, List.mem_singleton] at he
    subst he
    rfl
  | cons t ts =>
    simp only [compileLane, List.mem_flatMap] at he
    obtain ⟨a, _, ha⟩ := he
    rcases List.mem_cons.mp ha with rfl | ha
    · rfl
    · rw [List.mem_singleton] at ha
      subst ha
      rfl

theorem getTriggerSteps_ct (props : WProps) :
    ∀ t ∈ getTriggerSteps props, t.componentType = "trigger" := by
  intro t ht
  simp only [getTriggerSteps, List.mem_map] at ht
  obtain ⟨kv, _, hkv⟩ := ht
  subst hkv
  rfl

theorem foldMain_end (E : List Edge) (l : List FlowNode) (acc : List V2Step) :
    foldMain E (mkStepNode "end" "end" "end" "end" [] false :: l) [] acc = acc.reverse := by
  simp [foldMain, convertFalse, closeOrDispatch, dispatchCore, mkStepNode]

theorem seq_end_head_ct (seq : List V2Step) (hleg : stepsLegal seq = true) :
    ∀ y ys, seq ++ [V2Step.endS] = y :: ys →
      decide (y.componentType = "trigger") = false := by
  intro y ys hy
  cases seq with
  | nil =>
    rw [List.nil_append] at hy
    injection hy with h1 h2
    subst h1
    rfl
  | cons s tl =>
    rw [List.cons_append] at hy
    injection hy with h1 h2
    subst h1
    cases s with
    | step id nm ty ct props =>
      have hnt : ct ≠ "trigger" := by
        intro h; subst h; simp [stepsLegal] at hleg
      simp [V2Step.componentType, decide_eq_false_iff_not, hnt]
    | switchS id nm ty props bf bt => rfl
    | containerS id nm ty props sq => rfl
    | triggerS id ty props => simp [stepsLegal] at hleg
    | startS => simp [stepsLegal] at hleg
    | endS => simp [stepsLegal] at hleg
    | tempNode id lbl c nn => simp [stepsLegal] at hleg

theorem reConstruct_strip (tN mn : List FlowNode) (E : List Edge) (p : WProps)
    (htN : ∀ n ∈ tN, (n.data.componentType == "trigger") = true) :
    reConstructWorklowToDefinition
      (mkStepNode "start" "start" "start" "start" [] false ::
        (mkStepNode "trigger_start" "trigger_start" "trigger" "trigger_start" [] false ::
          (tN ++ (mkStepNode "trigger_end" "trigger_end" "trigger" "trigger_end" [] false ::
            mn))))
      E p = { sequence := foldMain E mn [] [], properties := p } := by
  have h1 := takeWhile_append_all (fun n => n.data.componentType == "trigger") tN
    (mkStepNode "trigger_end" "trigger_end" "trigger" "trigger_end" [] false :: mn) htN
    (by
      intro y ys hy
      injection hy with hh1 hh2
      subst hh1
      rfl)
  simp [reConstructWorklowToDefinition, mkStepNode] at h1 ⊢
  rw [h1, List.drop_left]
  simp

/-- C7: for every legally-constructed Definition (structurally legal main
sequence, globally distinct node ids), decompiling the graph compiled from it
yields the Definition back: the round trip
`reConstructWorklowToDefinition (processWorkflowV2 (fullSequence d))` is the
identity on the step tree and the property map, position and layout metadata
being absent from the reconstruction by construction. -/
theorem roundTrip_decompile_compile (d : Definition) (hL : legalDef d) :
    reConstructWorklowToDefinition (compileDefinition d).1 (compileDefinition d).2
      d.properties = d := by
  obtain ⟨hleg, hN⟩ := hL
  simp only [allIds] at hN
  have hNseq : (collectIds d.sequence).Nodup := hN.of_append_left.of_append_right
  have hDend := List.disjoint_of_nodup_append hN
  have hFresh : ∀ x ∈ collectIds d.sequence, x ∉ stackStops [] ∧ x ≠ "end" := by
    intro x hx
    refine ⟨by simp [stackStops], ?_⟩
    intro hxe
    exact List.disjoint_left.mp hDend (List.mem_append.mpr (Or.inr hx))
      (by rw [hxe]; exact List.mem_singleton.mpr rfl)
  have hTake := takeWhile_append_all (fun s => decide (s.componentType = "trigger"))
    (getTriggerSteps d.properties) (d.sequence ++ [V2Step.endS])
    (fun x hx => by simp [getTriggerSteps_ct d.properties x hx])
    (seq_end_head_ct d.sequence hleg)
  have hPW : compileDefinition d =
      ([mkStepNode "start" "start" "start" "start" [] false] ++
        (compileLane (getTriggerSteps d.properties)).1 ++
        (compileSeq (d.sequence ++ [V2Step.endS]) "end" false).1,
       [createCustomEdgeMeta "start" "trigger_start" none] ++
        (compileLane (getTriggerSteps d.properties)).2 ++
        [createCustomEdgeMeta "trigger_end"
          (firstId (d.sequence ++ [V2Step.endS]) "end") none] ++
        (compileSeq (d.sequence ++ [V2Step.endS]) "end" false).2) := by
    conv_lhs => simp only [compileDefinition]
    conv_lhs => simp only [List.append_assoc, List.cons_append, List.nil_append]
    conv_lhs => simp only [processWorkflowV2]
    conv_lhs => rw [hTake, List.drop_left]
  have hSeqSplit := compileSeq_append d.sequence [V2Step.endS] "end" false
  rw [show firstId [V2Step.endS] "end" = "end" from rfl] at hSeqSplit
  rw [show compileSeq [V2Step.endS] "end" false =
      ([mkStepNode "end" "end" "end" "end" [] false], ([] : List Edge)) from by
    simp [compileSeq, compileStep]] at hSeqSplit
  rw [hSeqSplit] at hPW
  have hLaneN : (compileLane (getTriggerSteps d.properties)).1 =
      mkStepNode "trigger_start" "trigger_start" "trigger" "trigger_start" [] false ::
        ((getTriggerSteps d.properties).map
          (fun t => mkStepNode t.id t.id t.type "trigger" t.properties false) ++
         [mkStepNode "trigger_end" "trigger_end" "trigger" "trigger_end" [] false]) := by
    simp [compileLane]
  rw [hLaneN] at hPW
  rw [hPW]
  have hEok : EdgesOk
      ([createCustomEdgeMeta "start" "trigger_start" none] ++
        (compileLane (getTriggerSteps d.properties)).2 ++
        [createCustomEdgeMeta "trigger_end"
          (firstId (d.sequence ++ [V2Step.endS]) "end") none] ++
        ((compileSeq d.sequence "end" false).2 ++ []))
      d.sequence := by
    have he := edgesOk_compiled d.sequence "end" false
      ([createCustomEdgeMeta "start" "trigger_start" none] ++
        (compileLane (getTriggerSteps d.properties)).2 ++
        [createCustomEdgeMeta "trigger_end"
          (firstId (d.sequence ++ [V2Step.endS]) "end") none]) [] hNseq
      (by
        intro e he
        refine Or.inr ?_
        rcases List.mem_append.mp he with he | he
        · rcases List.mem_append.mp he with he | he
          · rw [List.mem_singleton] at he
            subst he
            rfl
          · exact compileLane_labels _ e he
        · rw [List.mem_singleton] at he
          subst he
          rfl)
    simpa [List.append_assoc] using he
  have hfold : foldMain
      ([createCustomEdgeMeta "start" "trigger_start" none] ++
        (compileLane (getTriggerSteps d.properties)).2 ++
        [createCustomEdgeMeta "trigger_end"
          (firstId (d.sequence ++ [V2Step.endS]) "end") none] ++
        ((compileSeq d.sequence "end" false).2 ++ []))
      ((compileSeq d.sequence "end" false).1 ++
        [mkStepNode "end" "end" "end" "end" [] false]) [] [] = d.sequence := by
    rw [fold_sim _ d.sequence "end" false
      [mkStepNode "end" "end" "end" "end" [] false] [] [] hleg hEok hNseq hFresh]
    rw [foldMain_end]
    simp
  have hstrip := reConstruct_strip
    ((getTriggerSteps d.properties).map
      (fun t => mkStepNode t.id t.id t.type "trigger" t.properties false))
    ((compileSeq d.sequence "end" false).1 ++
      [mkStepNode "end" "end" "end" "end" [] false])
    ([createCustomEdgeMeta "start" "trigger_start" none] ++
      (compileLane (getTriggerSteps d.properties)).2 ++
      [createCustomEdgeMeta "trigger_end"
        (firstId (d.sequence ++ [V2Step.endS]) "end") none] ++
      ((compileSeq d.sequence "end" false).2 ++ []))
    d.properties
    (by
      intro n hn
      rw [List.mem_map] at hn
      obtain ⟨t, _, ht⟩ := hn
      subst ht
      rfl)
  rw [show ([mkStepNode "start" "start" "start" "start" [] false] ++
      (mkStepNode "trigger_start" "trigger_start" "trigger" "trigger_start" [] false ::
        ((getTriggerSteps d.properties).map
          (fun t => mkStepNode t.id t.id t.type "trigger" t.properties false) ++
         [mkStepNode "trigger_end" "trigger_end" "trigger" "trigger_end" [] false])) ++
      ((compileSeq d.sequence "end" false).1 ++
        [mkStepNode "end" "end" "end" "end" [] false])) =
    (mkStepNode "start" "start" "start" "start" [] false ::
      (mkStepNode "trigger_start" "trigger_start" "trigger" "trigger_start" [] false ::
        ((getTriggerSteps d.properties).map
          (fun t => mkStepNode t.id t.id t.type "trigger" t.properties false) ++
         (mkStepNode "trigger_end" "trigger_end" "trigger" "trigger_end" [] false ::
          ((compileSeq d.sequence "end" false).1 ++
            [mkStepNode "end" "end" "end" "end" [] false]))))) from by
    simp [List.append_assoc]]
  rw [hstrip, hfold]


def rtWitnessDef : Definition :=
  { sequence := [.switchS "s1" "S" "cond" []
                   [.step "f" "F" "task" "task" []]
                   [.containerS "c1" "C" "foreach" [] [.step "x" "X" "task" "task" []]],
                 .step "z" "Z" "task" "task" []]
    properties := [("manual", .s "true")] }

/-- Witness for C7: a concrete legal Definition holding a switch, a nested
container and a trailing step round-trips through compile/decompile. -/
theorem roundTrip_decompile_compile_witness :
    legalDef rtWitnessDef ∧
      reConstructWorklowToDefinition (compileDefinition rtWitnessDef).1
        (compileDefinition rtWitnessDef).2 rtWitnessDef.properties = rtWitnessDef := by
  have hL : legalDef rtWitnessDef := by
    constructor
    · simp [rtWitnessDef, stepsLegal]
    · simp only [rtWitnessDef, allIds, kindsOf, collectIds, boundaryId, triggerKinds]
      decide
  exact ⟨hL, roundTrip_decompile_compile rtWitnessDef hL⟩

end KeepWF
